import Mathlib

/-!
# Verification of the Poppy scheduled-action core

Shallow embedding, in Lean 4, of the parts of the Poppy repository that the
frozen claims are about:

* `tasks/scheduled_actions_v2.py` — the Store (SQLite rows and their
  operations).  Timestamps of the form `YYYY-MM-DD HH:MM:SS` are modelled as
  naturals: the format is zero padded, so SQL string comparison agrees with
  chronological order, and `strftime`/`strptime` round-trips are identities.
* `tasks/scheduler_v2.py` — the engine tick (`_scheduler_loop` body).
* `tasks/action_executor_v2.py` — only its result dictionary shape matters to
  the engine; its internal `try/except` means it never raises into the loop.
* `tasks/command_parser.py` and the scheduling branch of
  `agents/speedDemon.py` — the intent-routing path that inserts actions.
* `ServoController.py` — the hardware envelope.
* `ticktick/task_poller.py` — the proactive reminder poller.

Each Python `datetime.now()` observed while processing one due action is
modelled by a single instant `tnow` for that action (the calls are
milliseconds apart and no claim distinguishes them).
-/

namespace Poppy

/-- The `status` column values used by the repository. -/
inductive Status
  | scheduled
  | active
  | completed
  | expired
deriving DecidableEq

/-- A row of the `scheduled_actions` table, with exactly the columns created
by `create_scheduled_actions_table` in `tasks/scheduled_actions_v2.py`
(the module's own schema has no recurring columns; see
`scheduledActionInitFields` below). -/
structure Row where
  id : Nat
  command : String
  trigger_time : Nat
  completion_mode : String
  retry_until : Option Nat
  status : Status
  attempt_count : Nat
  context : Option String
  last_attempt : Option Nat
deriving DecidableEq

/-- The Store: the list of rows of the `scheduled_actions` table. -/
abbrev Store := List Row

/-- Lookup `SELECT ... WHERE id = ?`: the row with the given id, if any. -/
def getRow (s : Store) (id : Nat) : Option Row :=
  s.find? (fun r => decide (r.id = id))

/-- The result dictionary returned by
`ActionExecutor.execute_scheduled_action` (keys `completed`, `should_retry`,
`retry_delay`, `voice_response`, `reason`).  The executor wraps its whole body
in `try/except` and returns a surrogate dictionary on any error, so the engine
always receives such a dictionary and the executor never raises. -/
structure Verdict where
  completed : Bool
  should_retry : Bool
  retry_delay : Nat
  voice_response : Option String
  reason : String
deriving DecidableEq

/-- Store mutations issued by the repository, in the order the engine issues
them.  `updateStatus` is `update_action_status`, `updateTrigger` is
`update_trigger_time`, `insert` is the row actually written by
`create_scheduled_action` (which always stores status `'scheduled'`). -/
inductive StoreOp
  | updateStatus (id : Nat) (st : Status) (cnt : Option Nat) (now : Nat)
  | updateTrigger (id : Nat) (new_trigger_time : Nat)
  | insert (r : Row)
deriving DecidableEq

/-- Effect of `update_action_status` on a single row: sets `status`, always stamps
`last_attempt` with the current time, and sets `attempt_count` exactly when
one was supplied (`tasks/scheduled_actions_v2.py`, lines 139-161). -/
def applyStatusRow (r : Row) (st : Status) (cnt : Option Nat) (now : Nat) : Row :=
  match cnt with
  | some c => { r with status := st, attempt_count := c, last_attempt := some now }
  | none => { r with status := st, last_attempt := some now }

/-- Apply one store mutation (the SQL `UPDATE ... WHERE id = ?` touches every
row whose id matches; `INSERT` appends). -/
def applyOp (s : Store) : StoreOp → Store
  | .updateStatus id st cnt now =>
      s.map (fun r => if r.id = id then applyStatusRow r st cnt now else r)
  | .updateTrigger id t =>
      s.map (fun r => if r.id = id then { r with trigger_time := t } else r)
  | .insert r => s ++ [r]

/-- Apply a list of store mutations in order. -/
def applyOps (s : Store) (ops : List StoreOp) : Store :=
  ops.foldl applyOp s

/-- Store-level `update_action_status`. -/
def update_action_status (s : Store) (id : Nat) (st : Status) (cnt : Option Nat)
    (now : Nat) : Store :=
  applyOp s (.updateStatus id st cnt now)

/-- Query `get_due_actions`: all rows with status in `('scheduled', 'active')` and
`trigger_time <= current_time`, ordered by `trigger_time` ascending
(`tasks/scheduled_actions_v2.py`, lines 114-137). -/
def get_due_actions (s : Store) (current_time : Nat) : List Row :=
  ((s.filter (fun r =>
      (decide (r.status = .scheduled) || decide (r.status = .active))
        && decide (r.trigger_time ≤ current_time)))).mergeSort
    (fun a b => decide (a.trigger_time ≤ b.trigger_time))

/-- The attribute names that `ScheduledAction.__init__` sets on an instance
(`tasks/scheduled_actions_v2.py`, lines 23-37).  Attribute access on any other
name raises `AttributeError`. -/
def scheduledActionInitFields : List String :=
  ["id", "command", "trigger_time", "completion_mode", "retry_until",
   "status", "attempt_count", "context", "last_attempt"]

/-- The keyword parameters accepted by `create_scheduled_action`
(`tasks/scheduled_actions_v2.py`, lines 72-75).  A call supplying any other
keyword raises `TypeError`. -/
def createScheduledActionParams : List String :=
  ["command", "trigger_time", "completion_mode", "retry_until", "context"]

/-- The keyword arguments the engine's recurrence-spawning call passes to
`create_scheduled_action` (`tasks/scheduler_v2.py`, lines 89-98). -/
def schedulerSpawnKwargs : List String :=
  ["command", "trigger_time", "completion_mode", "context", "recurring",
   "recurring_interval_seconds", "recurring_until", "parent_recurring_id"]

/-- The keyword arguments the dialogue loop's scheduling branch passes to
`create_scheduled_action` (`agents/speedDemon.py`, lines 218-227). -/
def speedDemonCreateKwargs : List String :=
  ["command", "trigger_time", "completion_mode", "retry_until", "context",
   "recurring", "recurring_interval_seconds", "recurring_until"]

/-- Result of processing one due action inside the engine tick:
the store mutations performed (in order), whether a Python exception escaped
the per-action code (to be caught by the loop's catch-all), and how many
times `execute_scheduled_action` — the Completion Oracle — was invoked. -/
structure ProcResult where
  ops : List StoreOp
  exc : Bool
  oracleCalls : Nat
deriving DecidableEq

/-- One due action's processing in `_scheduler_loop`
(`tasks/scheduler_v2.py`, lines 55-122):

1. `update_action_status(id, 'active', attempt_count)`;
2. `executor.execute_scheduled_action(...)` — one oracle invocation, always;
3. on `completed`: `update_action_status(id, 'completed')`, then the code
   reads `action.recurring` — an attribute `ScheduledAction.__init__` never
   sets (`scheduledActionInitFields`), so `AttributeError` is raised and no
   child is ever inserted;
4. on `should_retry` with `retry_until` set and `now` strictly past it:
   `update_action_status(id, 'expired')`;
5. on `should_retry` otherwise: `update_trigger_time(id, now + retry_delay)`
   then `update_action_status(id, 'scheduled', attempt_count + 1)`;
6. otherwise (defensive): `update_action_status(id, 'completed')`. -/
def processAction (a : Row) (v : Verdict) (tnow : Nat) : ProcResult :=
  let setActive := StoreOp.updateStatus a.id .active (some a.attempt_count) tnow
  if v.completed then
    { ops := [setActive, .updateStatus a.id .completed none tnow],
      exc := true, oracleCalls := 1 }
  else if v.should_retry then
    match a.retry_until with
    | some deadline =>
        if tnow > deadline then
          { ops := [setActive, .updateStatus a.id .expired none tnow],
            exc := false, oracleCalls := 1 }
        else
          { ops := [setActive, .updateTrigger a.id (tnow + v.retry_delay),
                    .updateStatus a.id .scheduled (some (a.attempt_count + 1)) tnow],
            exc := false, oracleCalls := 1 }
    | none =>
        { ops := [setActive, .updateTrigger a.id (tnow + v.retry_delay),
                  .updateStatus a.id .scheduled (some (a.attempt_count + 1)) tnow],
          exc := false, oracleCalls := 1 }
  else
    { ops := [setActive, .updateStatus a.id .completed none tnow],
      exc := false, oracleCalls := 1 }

/-- Process a list of due actions sequentially.  An exception escaping one
action's processing aborts the remainder of the `for` loop (it propagates to
the catch-all around the tick body), so later actions contribute no store
mutations and no oracle invocations. -/
def processDue (oracle : Row → Verdict) (tnow : Nat) : List Row → ProcResult
  | [] => { ops := [], exc := false, oracleCalls := 0 }
  | a :: rest =>
      let pr := processAction a (oracle a) tnow
      if pr.exc then pr
      else
        let prRest := processDue oracle tnow rest
        { ops := pr.ops ++ prRest.ops, exc := prRest.exc,
          oracleCalls := pr.oracleCalls + prRest.oracleCalls }

/-- The store mutations performed by one engine tick. -/
def tickOps (s : Store) (oracle : Row → Verdict) (tnow : Nat) : List StoreOp :=
  (processDue oracle tnow (get_due_actions s tnow)).ops

/-- Whether a Python exception was raised (and caught by the tick's
catch-all) during one engine tick. -/
def tickExc (s : Store) (oracle : Row → Verdict) (tnow : Nat) : Bool :=
  (processDue oracle tnow (get_due_actions s tnow)).exc

/-- Number of Completion Oracle invocations performed by one engine tick. -/
def tickOracleCalls (s : Store) (oracle : Row → Verdict) (tnow : Nat) : Nat :=
  (processDue oracle tnow (get_due_actions s tnow)).oracleCalls

/-- One engine tick: the `try` body of `_scheduler_loop` with its `except`
catch-all.  Any exception raised mid-tick leaves the store mutations already
performed in place and is swallowed; the worker then sleeps and ticks again,
so the tick is a total function on stores. -/
def tick (s : Store) (oracle : Row → Verdict) (tnow : Nat) : Store :=
  applyOps s (tickOps s oracle tnow)

/-- A run of the engine worker: one tick per element of `steps`, each with
its own oracle behaviour and instant.  Totality of `tick` models the
catch-all: the worker keeps ticking whatever happened inside a tick. -/
def engineRun (s : Store) : List ((Row → Verdict) × Nat) → Store
  | [] => s
  | (oracle, tnow) :: rest => engineRun (tick s oracle tnow) rest

/-- SQLite `INTEGER PRIMARY KEY AUTOINCREMENT`: the id assigned to a newly
inserted row is strictly larger than every id already in the table. -/
def freshId (s : Store) : Nat :=
  (s.map Row.id).foldr max 0 + 1

/-- `create_scheduled_action` (`tasks/scheduled_actions_v2.py`, lines 72-112):
inserts a new row with status `'scheduled'`, `attempt_count` left at its
column default `0`, and `last_attempt` unset. -/
def create_scheduled_action (s : Store) (command : String) (trigger_time : Nat)
    (completion_mode : String) (retry_until : Option Nat) (context : Option String) :
    Store :=
  applyOp s (.insert
    { id := freshId s
      command := command
      trigger_time := trigger_time
      completion_mode := completion_mode
      retry_until := retry_until
      status := .scheduled
      attempt_count := 0
      context := context
      last_attempt := none })

/-- `delete_scheduled_action`: `DELETE FROM scheduled_actions WHERE id = ?`. -/
def delete_scheduled_action (s : Store) (id : Nat) : Store :=
  s.filter (fun r => decide (r.id ≠ id))

/-- Whether a store mutation is an `INSERT`. -/
def StoreOp.isInsert : StoreOp → Bool
  | .insert _ => true
  | _ => false

/-- Whether a store mutation touches the row with the given id. -/
def StoreOp.targetsId : StoreOp → Nat → Bool
  | .updateStatus i _ _ _, j => decide (i = j)
  | .updateTrigger i _, j => decide (i = j)
  | .insert r, j => decide (r.id = j)

/-- The status transitions the specification allows:
`scheduled → active`, `active → completed`, `active → scheduled`,
`scheduled → expired`, `active → expired`. -/
def allowedTransition : Status → Status → Bool
  | .scheduled, .active => true
  | .active, .completed => true
  | .active, .scheduled => true
  | .scheduled, .expired => true
  | .active, .expired => true
  | _, _ => false

/-- Terminal statuses: `completed` and `expired`. -/
def terminalStatus : Status → Bool
  | .completed => true
  | .expired => true
  | _ => false

/-- Per-row correctness of the status evolution: a row either keeps its
status, or changes it along an allowed transition, and a terminal row never
changes status. -/
def statusOk (r r' : Row) : Prop :=
  r'.status = r.status ∨
    (allowedTransition r.status r'.status = true ∧ terminalStatus r.status = false)

/-- Per-row monotonicity of the attempt counter. -/
def countMono (r r' : Row) : Prop :=
  r.attempt_count ≤ r'.attempt_count

/-- A list of store mutations, applied in order starting from `s`, moves
every row only along `P` (rows not present before or after an op are not
constrained; the repository's update ops preserve ids, so every updated row
is tracked). -/
def EvolveOk (P : Row → Row → Prop) : Store → List StoreOp → Prop
  | _, [] => True
  | s, op :: rest =>
      (∀ id r r', getRow s id = some r → getRow (applyOp s op) id = some r' → P r r') ∧
      EvolveOk P (applyOp s op) rest

/-! ## Intent routing: `tasks/command_parser.py` and the scheduling branch of
`agents/speedDemon.py` -/

/-- The `SchedulingRequest` pydantic model (`tasks/command_parser.py`,
lines 11-21), as returned by the Gemini structured-output call. -/
structure SchedulingRequest where
  should_schedule : Bool
  command : String
  trigger_time : Nat
  completion_mode : String
  retry_until : Option Nat
  confirmation_message : String
  recurring : Bool
  recurring_interval_seconds : Option Nat
  recurring_until : Option Nat
deriving DecidableEq

/-- Function `parse_scheduling_request` (`tasks/command_parser.py`, lines
357-381): the LLM call either raises (modelled by `none`, the `except` branch
returns `None`) or yields a parsed `SchedulingRequest`; the function returns
the parsed result exactly when `should_schedule` is true.  No field — in
particular `trigger_time` — is validated or modified by the core. -/
def parse_scheduling_request (llmResponse : Option SchedulingRequest) :
    Option SchedulingRequest :=
  match llmResponse with
  | none => none
  | some r => if r.should_schedule then some r else none

/-- The keyword arguments of the `create_scheduled_action` call in the
scheduling branch of the dialogue main loop. -/
structure CreateCallKwargs where
  command : String
  trigger_time : Nat
  completion_mode : String
  retry_until : Option Nat
  context : Option String
  recurring : Bool
  recurring_interval_seconds : Option Nat
  recurring_until : Option Nat
deriving DecidableEq

/-- The scheduling branch of the dialogue main loop (`agents/speedDemon.py`,
lines 207-244): every field of the parsed request is forwarded verbatim to
`create_scheduled_action`; the transcript becomes the context bag.  No
comparison of `trigger_time` against the current time occurs anywhere on
this path. -/
def scheduling_branch_call (transcript : String) (req : SchedulingRequest) :
    CreateCallKwargs :=
  { command := req.command
    trigger_time := req.trigger_time
    completion_mode := req.completion_mode
    retry_until := req.retry_until
    context := some transcript
    recurring := req.recurring
    recurring_interval_seconds := req.recurring_interval_seconds
    recurring_until := req.recurring_until }

/-! ## Hardware: `ServoController.py` -/

/-- Lines written on the serial link: `s:<channel>:<value>` for servos and
`step:<direction>:<steps>` for the stepper. -/
inductive Line
  | servo (channel : ℤ) (value : ℚ)
  | step (direction : String) (steps : ℤ)
deriving DecidableEq

/-- Textual wire format of a serial line (without the trailing newline). -/
def renderLine : Line → String
  | .servo ch v => "s:" ++ toString ch ++ ":" ++ toString v
  | .step dir n => "step:" ++ dir ++ ":" ++ toString n

def MIN_STEPPER_DEG : ℚ := -180

def MAX_STEPPER_DEG : ℚ := 180

/-- The mutable state of `ServoController` (`ServoController.py`, lines
9-21): the serial handle (`None` or connected), the three position
accumulators, and the per-call safety limit `max_servo_change = 80`. -/
structure Servo where
  arduinoConnected : Bool
  elevation_servo_pos : ℚ
  translation_servo_pos : ℚ
  rotation_stepper_deg : ℚ
  max_servo_change : ℚ
deriving DecidableEq

def elevation_motor_port : ℤ := 8

def translation_motor_port : ℤ := 0

/-- Constructor state: positions start at 0 and the safety limit at 80;
whether `_connect` succeeded is a parameter. -/
def initServo (connected : Bool) : Servo :=
  { arduinoConnected := connected
    elevation_servo_pos := 0
    translation_servo_pos := 0
    rotation_stepper_deg := 0
    max_servo_change := 80 }

/-- Method `_clamp_servo`: clamp a servo value into `[0, 100]`. -/
def clamp_servo (value : ℚ) : ℚ :=
  max 0 (min 100 value)

/-- Method `_clamp_rotation`: clamp a rotation into `[-180, 180]`. -/
def clamp_rotation (value : ℚ) : ℚ :=
  max MIN_STEPPER_DEG (min MAX_STEPPER_DEG value)

/-- Method `_safe_servo_move`: cap the requested change at
`± max_servo_change` (the `current_pos` argument is unused in the source,
kept here for fidelity). -/
def safe_servo_move (c : Servo) (current_pos target_change : ℚ) : ℚ :=
  if |target_change| > c.max_servo_change then
    (if target_change > 0 then c.max_servo_change else -c.max_servo_change)
  else target_change

/-- Method `move_servo` (`ServoController.py`, lines 45-57): refuses when not
connected or when `channel ∉ [0,15]` or `value ∉ [0,100]`; otherwise emits
`s:<channel>:<value>`.  It mutates no position accumulator.  The result is
`(state, emitted lines, returned Bool)`. -/
def move_servo (c : Servo) (channel : ℤ) (value : ℚ) : Servo × List Line × Bool :=
  if ¬ c.arduinoConnected then (c, [], false)
  else if 0 ≤ channel ∧ channel ≤ 15 ∧ 0 ≤ value ∧ value ≤ 100 then
    (c, [Line.servo channel value], true)
  else (c, [], false)

/-- Method `move_up` (`ServoController.py`, lines 59-70). -/
def move_up (c : Servo) (value : ℚ) : Servo × List Line × Bool :=
  let safe_value := safe_servo_move c c.elevation_servo_pos |value|
  let new_pos := clamp_servo (c.elevation_servo_pos + safe_value)
  if new_pos ≠ c.elevation_servo_pos then
    let res := move_servo c elevation_motor_port new_pos
    if res.2.2 then
      ({ res.1 with elevation_servo_pos := new_pos }, res.2.1, true)
    else (res.1, res.2.1, false)
  else (c, [], false)

/-- Method `move_down` (`ServoController.py`, lines 72-83). -/
def move_down (c : Servo) (value : ℚ) : Servo × List Line × Bool :=
  let safe_value := safe_servo_move c c.elevation_servo_pos (-|value|)
  let new_pos := clamp_servo (c.elevation_servo_pos + safe_value)
  if new_pos ≠ c.elevation_servo_pos then
    let res := move_servo c elevation_motor_port new_pos
    if res.2.2 then
      ({ res.1 with elevation_servo_pos := new_pos }, res.2.1, true)
    else (res.1, res.2.1, false)
  else (c, [], false)

/-- Method `move_forward` (`ServoController.py`, lines 85-96). -/
def move_forward (c : Servo) (value : ℚ) : Servo × List Line × Bool :=
  let safe_value := safe_servo_move c c.translation_servo_pos |value|
  let new_pos := clamp_servo (c.translation_servo_pos + safe_value)
  if new_pos ≠ c.translation_servo_pos then
    let res := move_servo c translation_motor_port new_pos
    if res.2.2 then
      ({ res.1 with translation_servo_pos := new_pos }, res.2.1, true)
    else (res.1, res.2.1, false)
  else (c, [], false)

/-- Method `move_backward` (`ServoController.py`, lines 98-109). -/
def move_backward (c : Servo) (value : ℚ) : Servo × List Line × Bool :=
  let safe_value := safe_servo_move c c.translation_servo_pos (-|value|)
  let new_pos := clamp_servo (c.translation_servo_pos + safe_value)
  if new_pos ≠ c.translation_servo_pos then
    let res := move_servo c translation_motor_port new_pos
    if res.2.2 then
      ({ res.1 with translation_servo_pos := new_pos }, res.2.1, true)
    else (res.1, res.2.1, false)
  else (c, [], false)

/-- Method `move_stepper` (`ServoController.py`, lines 135-155): step count
is `degrees * 1000 // 180` (Python floor division); the move is refused when
the resulting rotation would leave `[-180, 180]`, and otherwise emits
`step:<direction>:<steps>`. -/
def move_stepper (c : Servo) (direction : String) (degrees : ℚ) :
    Servo × List Line × Bool :=
  if ¬ c.arduinoConnected then (c, [], false)
  else if direction ≠ "left" ∧ direction ≠ "right" then (c, [], false)
  else
    let steps : ℤ := ⌊degrees * 1000 / 180⌋
    let new_step_deg :=
      if direction = "left" then c.rotation_stepper_deg - degrees
      else c.rotation_stepper_deg + degrees
    if new_step_deg < MIN_STEPPER_DEG ∨ new_step_deg > MAX_STEPPER_DEG then
      (c, [], false)
    else (c, [Line.step direction steps], true)

/-- Method `move_left` (`ServoController.py`, lines 111-121). -/
def move_left (c : Servo) (degrees : ℚ) : Servo × List Line × Bool :=
  let new_rotation := clamp_rotation (c.rotation_stepper_deg - |degrees|)
  if new_rotation ≠ c.rotation_stepper_deg then
    let res := move_stepper c "left" |degrees|
    if res.2.2 then
      ({ res.1 with rotation_stepper_deg := new_rotation }, res.2.1, true)
    else (res.1, res.2.1, false)
  else (c, [], false)

/-- Method `move_right` (`ServoController.py`, lines 123-133). -/
def move_right (c : Servo) (degrees : ℚ) : Servo × List Line × Bool :=
  let new_rotation := clamp_rotation (c.rotation_stepper_deg + |degrees|)
  if new_rotation ≠ c.rotation_stepper_deg then
    let res := move_stepper c "right" |degrees|
    if res.2.2 then
      ({ res.1 with rotation_stepper_deg := new_rotation }, res.2.1, true)
    else (res.1, res.2.1, false)
  else (c, [], false)

/-- The public motion surface of the controller, as dispatched by
`agents/robot_actions.py` (command ids 0-4). -/
inductive CtrlOp
  | servoCmd (channel : ℤ) (value : ℚ)
  | up (value : ℚ)
  | down (value : ℚ)
  | fwd (value : ℚ)
  | back (value : ℚ)
  | left (degrees : ℚ)
  | right (degrees : ℚ)

/-- Run one controller operation. -/
def runOp (c : Servo) : CtrlOp → Servo × List Line × Bool
  | .servoCmd ch v => move_servo c ch v
  | .up v => move_up c v
  | .down v => move_down c v
  | .fwd v => move_forward c v
  | .back v => move_backward c v
  | .left d => move_left c d
  | .right d => move_right c d

/-- Run a sequence of controller operations, keeping only the state. -/
def runOps (c : Servo) : List CtrlOp → Servo
  | [] => c
  | op :: rest => runOps (runOp c op).1 rest

/-! ## Stepper math of the controller variant the core imports

Modelled from the spec: `agents/ServoController.py` — the module imported by
`tasks/scheduler_v2.py`, `agents/speedDemon.py` and `agents/robot_actions.py`
(`from agents.ServoController import ServoController`) — is absent from the
repository snapshot; only its callers are present.  Spec §6 defines its step
computation: a configurable microstep multiplier (default 8) times
full-steps-per-revolution (default 200) gives 1600 steps per revolution, so
`steps = round(|deg| * 1600 / 360)`, floored to 1 when `deg > 0.01`; the
rotation accumulator is kept in `[-180, 180]` and an out-of-envelope request
is a silent no-op. -/

def MICROSTEP : ℕ := 8

def FULL_STEPS_PER_REVOLUTION : ℕ := 200

def STEPS_PER_REVOLUTION : ℕ := MICROSTEP * FULL_STEPS_PER_REVOLUTION

/-- Modelled from the spec: the step count of `agents/ServoController.py`,
`round(|deg| * 1600 / 360)`, floored to 1 when `deg > 0.01`. -/
def stepCountFromDegrees (d : ℚ) : ℤ :=
  let s := round (|d| * (STEPS_PER_REVOLUTION : ℚ) / 360)
  if d > 1 / 100 then max s 1 else s

/-- Rotation state of the spec-modelled stepper. -/
structure SpecStepper where
  rotation : ℚ
deriving DecidableEq

/-- Modelled from the spec: `move_left` of `agents/ServoController.py` —
relative rotation to the left; a target outside `[-180, 180]` is a silent
no-op, otherwise `step:left:<steps>` is emitted and the accumulator
decreases by `|deg|`. -/
def specMoveLeft (c : SpecStepper) (d : ℚ) : SpecStepper × List Line :=
  let target := c.rotation - |d|
  if target < -180 ∨ target > 180 then (c, [])
  else ({ rotation := target }, [Line.step "left" (stepCountFromDegrees d)])

/-- Modelled from the spec: `move_right` of `agents/ServoController.py`. -/
def specMoveRight (c : SpecStepper) (d : ℚ) : SpecStepper × List Line :=
  let target := c.rotation + |d|
  if target < -180 ∨ target > 180 then (c, [])
  else ({ rotation := target }, [Line.step "right" (stepCountFromDegrees d)])

/-! ## Proactive poller: `ticktick/task_poller.py` -/

/-- Python `str.strip()` on a character list. -/
def stripChars (l : List Char) : List Char :=
  ((l.dropWhile Char.isWhitespace).reverse.dropWhile Char.isWhitespace).reverse

/-- The reminder fingerprint `result.strip()[:200]`
(`ticktick/task_poller.py`, line 131). -/
def fingerprint (result : String) : String :=
  ⟨(stripChars result.data).take 200⟩

/-- Python `str.lower()`. -/
def pyLower (s : String) : String :=
  ⟨s.data.map Char.toLower⟩

/-- Prefix test on character lists. -/
def leads : List Char → List Char → Bool
  | [], _ => true
  | _ :: _, [] => false
  | a :: as, b :: bs => a == b && leads as bs

/-- Python `needle in haystack` on character lists. -/
def occurs (needle : List Char) : List Char → Bool
  | [] => needle.isEmpty
  | b :: bs => leads needle (b :: bs) || occurs needle bs

/-- Python `phrase in text` on strings. -/
def containsPhrase (text phrase : String) : Bool :=
  occurs phrase.data text.data

/-- The empty-sentinel phrases of `_check_and_remind`
(`ticktick/task_poller.py`, lines 123-126). -/
def emptySentinels : List String :=
  ["no tasks due", "no tasks", "no overdue", "nothing due", "none", "all clear"]

/-- Whether the agent's answer canonicalizes to an empty sentinel:
lowercased, it contains one of the sentinel phrases. -/
def isEmptySentinel (result : String) : Bool :=
  emptySentinels.any (fun p => containsPhrase (pyLower result) p)

/-- Result of one `_check_and_remind` call: the new reminded-set and the
utterance spoken, if any. -/
structure CheckResult where
  cache : List String
  spoken : Option String
deriving DecidableEq

/-- Method `_check_and_remind` (`ticktick/task_poller.py`, lines 105-148):
skip when the agent is down, when the answer is falsy or canonicalizes to an
empty sentinel, or when its fingerprint was already reminded; otherwise the
fingerprint is added to the reminded-set and the reminder is spoken. -/
def check_and_remind (cache : List String) (agentRunning : Bool) (result : String) :
    CheckResult :=
  if ¬ agentRunning then ⟨cache, none⟩
  else if result = "" then ⟨cache, none⟩
  else if isEmptySentinel result then ⟨cache, none⟩
  else
    let key := fingerprint result
    if cache.contains key then ⟨cache, none⟩
    else ⟨key :: cache, some ("Hey, quick reminder — " ++ result)⟩

/-- Session events of the poller: a poll (with the sub-agent's liveness and
answer) or an explicit `clear_reminder_cache`. -/
inductive PollEvent
  | poll (agentRunning : Bool) (result : String)
  | clearCache
deriving DecidableEq

/-- Run the poller over a list of events, returning the final reminded-set
and the fingerprints of all answers actually spoken, in order. -/
def pollerRun (cache : List String) : List PollEvent → List String × List String
  | [] => (cache, [])
  | .clearCache :: es => pollerRun [] es
  | .poll ar res :: es =>
      let cr := check_and_remind cache ar res
      let rest := pollerRun cr.cache es
      (rest.1, (match cr.spoken with
                | some _ => [fingerprint res]
                | none => []) ++ rest.2)

/-! ## Concrete sample data used by witnesses and counterexamples -/

/-- A sample due action: scheduled, due at 0, `retry_until` 30, two attempts
so far. -/
def sampleRow : Row :=
  { id := 1
    command := "Wake me up"
    trigger_time := 0
    completion_mode := "retry_until_acknowledged"
    retry_until := some 30
    status := .scheduled
    attempt_count := 2
    context := none
    last_attempt := none }

/-- A verdict asking for a retry in 60 seconds. -/
def retryVerdict : Verdict :=
  { completed := false
    should_retry := true
    retry_delay := 60
    voice_response := none
    reason := "not yet" }

/-- A verdict declaring the action completed. -/
def completedVerdict : Verdict :=
  { completed := true
    should_retry := false
    retry_delay := 0
    voice_response := some "done"
    reason := "done" }

/-- A sample LLM answer for the scheduling classifier: `should_schedule`
true with a `trigger_time` already in the past. -/
def pastRequest : SchedulingRequest :=
  { should_schedule := true
    command := "Remind me to drink water"
    trigger_time := 40
    completion_mode := "one_shot"
    retry_until := none
    confirmation_message := "Will do"
    recurring := false
    recurring_interval_seconds := none
    recurring_until := none }

end Poppy

/-! ## Lemmas about the Store embedding -/

namespace Poppy

lemma applyStatusRow_id (r : Row) (st : Status) (cnt : Option Nat) (now : Nat) :
    (applyStatusRow r st cnt now).id = r.id := by
  cases cnt <;> rfl

lemma applyStatusRow_status (r : Row) (st : Status) (cnt : Option Nat) (now : Nat) :
    (applyStatusRow r st cnt now).status = st := by
  cases cnt <;> rfl

lemma applyStatusRow_last_attempt (r : Row) (st : Status) (cnt : Option Nat) (now : Nat) :
    (applyStatusRow r st cnt now).last_attempt = some now := by
  cases cnt <;> rfl

lemma getRow_id {s : Store} {j : Nat} {r : Row} (h : getRow s j = some r) :
    r.id = j := by
  have := List.find?_some h
  simpa using this

lemma getRow_mem {s : Store} {j : Nat} {r : Row} (h : getRow s j = some r) :
    r ∈ s :=
  List.mem_of_find?_eq_some h

lemma getRow_map_of_id_preserving (s : Store) (g : Row → Row)
    (hg : ∀ r, (g r).id = r.id) (j : Nat) :
    getRow (s.map g) j = (getRow s j).map g := by
  unfold getRow
  rw [List.find?_map]
  have hfun : ((fun r => decide (r.id = j)) ∘ g) = (fun r : Row => decide (r.id = j)) := by
    funext r
    simp [Function.comp, hg r]
  rw [hfun]

lemma getRow_updateStatus (s : Store) (tid : Nat) (st : Status) (cnt : Option Nat)
    (now : Nat) (j : Nat) :
    getRow (applyOp s (.updateStatus tid st cnt now)) j =
      (getRow s j).map (fun r => if r.id = tid then applyStatusRow r st cnt now else r) := by
  apply getRow_map_of_id_preserving
  intro r
  by_cases h : r.id = tid <;> simp [h, applyStatusRow_id]

lemma getRow_updateTrigger (s : Store) (tid : Nat) (t : Nat) (j : Nat) :
    getRow (applyOp s (.updateTrigger tid t)) j =
      (getRow s j).map (fun r => if r.id = tid then { r with trigger_time := t } else r) := by
  apply getRow_map_of_id_preserving
  intro r
  by_cases h : r.id = tid <;> simp [h]

lemma getRow_updateStatus_self {s : Store} {tid : Nat} {r : Row}
    (hr : getRow s tid = some r) (st : Status) (cnt : Option Nat) (now : Nat) :
    getRow (applyOp s (.updateStatus tid st cnt now)) tid =
      some (applyStatusRow r st cnt now) := by
  rw [getRow_updateStatus, hr]
  simp [getRow_id hr]

lemma getRow_updateTrigger_self {s : Store} {tid : Nat} {r : Row}
    (hr : getRow s tid = some r) (t : Nat) :
    getRow (applyOp s (.updateTrigger tid t)) tid =
      some { r with trigger_time := t } := by
  rw [getRow_updateTrigger, hr]
  simp [getRow_id hr]

lemma getRow_applyOp_not_target {s : Store} {op : StoreOp} {j : Nat}
    (h : op.targetsId j = false) :
    getRow (applyOp s op) j = getRow s j := by
  cases op with
  | updateStatus i st cnt now =>
      have hij : ¬ i = j := by simpa [StoreOp.targetsId] using h
      rw [getRow_updateStatus]
      cases hr : getRow s j with
      | none => rfl
      | some r =>
          have hrj : r.id = j := getRow_id hr
          have hne : ¬ r.id = i := by
            rw [hrj]; intro hc; exact hij hc.symm
          simp [hne]
  | updateTrigger i t =>
      have hij : ¬ i = j := by simpa [StoreOp.targetsId] using h
      rw [getRow_updateTrigger]
      cases hr : getRow s j with
      | none => rfl
      | some r =>
          have hrj : r.id = j := getRow_id hr
          have hne : ¬ r.id = i := by
            rw [hrj]; intro hc; exact hij hc.symm
          simp [hne]
  | insert r =>
      have hij : ¬ r.id = j := by simpa [StoreOp.targetsId] using h
      show getRow (s ++ [r]) j = getRow s j
      unfold getRow
      rw [List.find?_append]
      have : List.find? (fun x => decide (x.id = j)) [r] = none := by
        simp [hij]
      rw [this, Option.or_none]

lemma getRow_applyOps_not_target {j : Nat} :
    ∀ (ops : List StoreOp) (s : Store), (∀ op ∈ ops, op.targetsId j = false) →
      getRow (applyOps s ops) j = getRow s j := by
  intro ops
  induction ops with
  | nil => intro s _; rfl
  | cons op rest ih =>
      intro s h
      have h1 : op.targetsId j = false := h op (by simp)
      have h2 : ∀ o ∈ rest, o.targetsId j = false := fun o ho => h o (by simp [ho])
      calc getRow (applyOps s (op :: rest)) j
          = getRow (applyOps (applyOp s op) rest) j := rfl
        _ = getRow (applyOp s op) j := ih (applyOp s op) h2
        _ = getRow s j := getRow_applyOp_not_target h1

lemma applyOps_append (s : Store) (l₁ l₂ : List StoreOp) :
    applyOps s (l₁ ++ l₂) = applyOps (applyOps s l₁) l₂ :=
  List.foldl_append _ _ _ _

lemma getRow_cons (b : Row) (t : List Row) (j : Nat) :
    getRow (b :: t) j = if b.id = j then some b else getRow t j := by
  unfold getRow
  by_cases h : b.id = j
  · rw [List.find?_cons_of_pos _ (by simpa using h), if_pos h]
  · rw [List.find?_cons_of_neg _ (by simpa using h), if_neg h]

lemma getRow_of_mem_nodup :
    ∀ {s : Store}, (s.map Row.id).Nodup → ∀ {a : Row}, a ∈ s → getRow s a.id = some a := by
  intro s
  induction s with
  | nil => intro _ a ha; cases ha
  | cons b t ih =>
      intro hnd a ha
      have hnd' : (t.map Row.id).Nodup := (List.nodup_cons.mp hnd).2
      have hbt : b.id ∉ t.map Row.id := (List.nodup_cons.mp hnd).1
      rcases List.mem_cons.mp ha with hab | hat
      · subst hab
        rw [getRow_cons, if_pos rfl]
      · by_cases hid : b.id = a.id
        · exfalso
          exact hbt (hid ▸ List.mem_map_of_mem Row.id hat)
        · rw [getRow_cons, if_neg hid]
          exact ih hnd' hat

lemma mem_due_iff {s : Store} {tnow : Nat} {a : Row} :
    a ∈ get_due_actions s tnow ↔
      a ∈ s ∧ (a.status = .scheduled ∨ a.status = .active) ∧ a.trigger_time ≤ tnow := by
  unfold get_due_actions
  rw [List.mem_mergeSort, List.mem_filter]
  simp [and_assoc]

lemma due_map_id_nodup {s : Store} (hnd : (s.map Row.id).Nodup) (tnow : Nat) :
    ((get_due_actions s tnow).map Row.id).Nodup := by
  have hperm : List.Perm (get_due_actions s tnow)
      (s.filter (fun r =>
        (decide (r.status = .scheduled) || decide (r.status = .active))
          && decide (r.trigger_time ≤ tnow))) :=
    List.mergeSort_perm _ _
  have hperm' := hperm.map Row.id
  rw [hperm'.nodup_iff]
  exact List.Nodup.sublist (List.Sublist.map Row.id (List.filter_sublist s)) hnd

/-! ## Lemmas about the engine's per-action processing -/

lemma processAction_completed {v : Verdict} (a : Row) (tnow : Nat)
    (hv : v.completed = true) :
    processAction a v tnow =
      { ops := [.updateStatus a.id .active (some a.attempt_count) tnow,
                .updateStatus a.id .completed none tnow],
        exc := true, oracleCalls := 1 } := by
  simp [processAction, hv]

lemma processAction_defensive {v : Verdict} (a : Row) (tnow : Nat)
    (hc : v.completed = false) (hr : v.should_retry = false) :
    processAction a v tnow =
      { ops := [.updateStatus a.id .active (some a.attempt_count) tnow,
                .updateStatus a.id .completed none tnow],
        exc := false, oracleCalls := 1 } := by
  simp [processAction, hc, hr]

lemma processAction_expired {v : Verdict} {a : Row} {tnow d : Nat}
    (hc : v.completed = false) (hr : v.should_retry = true)
    (hd : a.retry_until = some d) (hlt : d < tnow) :
    processAction a v tnow =
      { ops := [.updateStatus a.id .active (some a.attempt_count) tnow,
                .updateStatus a.id .expired none tnow],
        exc := false, oracleCalls := 1 } := by
  simp [processAction, hc, hr, hd, hlt]

lemma processAction_retry {v : Verdict} {a : Row} {tnow : Nat}
    (hc : v.completed = false) (hr : v.should_retry = true)
    (hd : a.retry_until = none ∨ ∃ d, a.retry_until = some d ∧ tnow ≤ d) :
    processAction a v tnow =
      { ops := [.updateStatus a.id .active (some a.attempt_count) tnow,
                .updateTrigger a.id (tnow + v.retry_delay),
                .updateStatus a.id .scheduled (some (a.attempt_count + 1)) tnow],
        exc := false, oracleCalls := 1 } := by
  rcases hd with hnone | ⟨d, hsome, hle⟩
  · simp [processAction, hc, hr, hnone]
  · simp [processAction, hc, hr, hsome, Nat.not_lt.mpr hle]

lemma processAction_ops_target {a : Row} {v : Verdict} {tnow : Nat} :
    ∀ op ∈ (processAction a v tnow).ops, op.isInsert = false ∧
      ∀ j, op.targetsId j = true → j = a.id := by
  intro op hop
  unfold processAction at hop
  split at hop
  · simp at hop
    rcases hop with h | h <;> subst h <;>
      exact ⟨rfl, fun j hj => ((of_decide_eq_true hj).symm)⟩
  · split at hop
    · split at hop
      · split at hop
        · simp at hop
          rcases hop with h | h <;> subst h <;>
            exact ⟨rfl, fun j hj => ((of_decide_eq_true hj).symm)⟩
        · simp at hop
          rcases hop with h | h | h <;> subst h <;>
            exact ⟨rfl, fun j hj => ((of_decide_eq_true hj).symm)⟩
      · simp at hop
        rcases hop with h | h | h <;> subst h <;>
          exact ⟨rfl, fun j hj => ((of_decide_eq_true hj).symm)⟩
    · simp at hop
      rcases hop with h | h <;> subst h <;>
        exact ⟨rfl, fun j hj => ((of_decide_eq_true hj).symm)⟩

lemma processAction_oracleCalls (a : Row) (v : Verdict) (tnow : Nat) :
    (processAction a v tnow).oracleCalls = 1 := by
  unfold processAction
  split
  · rfl
  · split
    · split
      · split <;> rfl
      · rfl
    · rfl

lemma processAction_exc_iff (a : Row) (v : Verdict) (tnow : Nat) :
    (processAction a v tnow).exc = true ↔ v.completed = true := by
  unfold processAction
  split
  · simp [*]
  · split
    · split
      · split <;> simp [*]
      · simp [*]
    · simp [*]

lemma processDue_ops_target {oracle : Row → Verdict} {tnow : Nat} :
    ∀ (l : List Row), ∀ op ∈ (processDue oracle tnow l).ops, op.isInsert = false ∧
      ∀ j, op.targetsId j = true → j ∈ l.map Row.id := by
  intro l
  induction l with
  | nil => intro op hop; simp [processDue] at hop
  | cons a rest ih =>
      intro op hop
      unfold processDue at hop
      by_cases hexc : (processAction a (oracle a) tnow).exc
      · rw [if_pos hexc] at hop
        rcases processAction_ops_target op hop with ⟨hins, htar⟩
        exact ⟨hins, fun j hj => by simp [htar j hj]⟩
      · rw [if_neg hexc] at hop
        simp only [List.mem_append] at hop
        rcases hop with hop | hop
        · rcases processAction_ops_target op hop with ⟨hins, htar⟩
          exact ⟨hins, fun j hj => by simp [htar j hj]⟩
        · rcases ih op hop with ⟨hins, htar⟩
          exact ⟨hins, fun j hj => by simpa using Or.inr (by simpa using htar j hj)⟩

/-- Net effect of one action's processing on its own row: the four branch
shapes. -/
lemma net_completed {s : Store} {a : Row} {v : Verdict} {tnow : Nat}
    (ha : getRow s a.id = some a) (hv : v.completed = true) :
    getRow (applyOps s (processAction a v tnow).ops) a.id =
      some { a with status := .completed, last_attempt := some tnow } := by
  rw [processAction_completed a tnow hv]
  simp only [applyOps, List.foldl_cons, List.foldl_nil]
  rw [getRow_updateStatus_self (getRow_updateStatus_self ha .active (some a.attempt_count) tnow) .completed none tnow]
  rfl

lemma net_defensive {s : Store} {a : Row} {v : Verdict} {tnow : Nat}
    (ha : getRow s a.id = some a) (hc : v.completed = false) (hr : v.should_retry = false) :
    getRow (applyOps s (processAction a v tnow).ops) a.id =
      some { a with status := .completed, last_attempt := some tnow } := by
  rw [processAction_defensive a tnow hc hr]
  simp only [applyOps, List.foldl_cons, List.foldl_nil]
  rw [getRow_updateStatus_self (getRow_updateStatus_self ha .active (some a.attempt_count) tnow) .completed none tnow]
  rfl

lemma net_expired {s : Store} {a : Row} {v : Verdict} {tnow d : Nat}
    (ha : getRow s a.id = some a) (hc : v.completed = false) (hr : v.should_retry = true)
    (hd : a.retry_until = some d) (hlt : d < tnow) :
    getRow (applyOps s (processAction a v tnow).ops) a.id =
      some { a with status := .expired, last_attempt := some tnow } := by
  rw [processAction_expired hc hr hd hlt]
  simp only [applyOps, List.foldl_cons, List.foldl_nil]
  rw [getRow_updateStatus_self (getRow_updateStatus_self ha .active (some a.attempt_count) tnow) .expired none tnow]
  rfl

lemma net_retry {s : Store} {a : Row} {v : Verdict} {tnow : Nat}
    (ha : getRow s a.id = some a) (hc : v.completed = false) (hr : v.should_retry = true)
    (hd : a.retry_until = none ∨ ∃ d, a.retry_until = some d ∧ tnow ≤ d) :
    getRow (applyOps s (processAction a v tnow).ops) a.id =
      some { a with status := .scheduled, attempt_count := a.attempt_count + 1,
                    trigger_time := tnow + v.retry_delay, last_attempt := some tnow } := by
  rw [processAction_retry hc hr hd]
  simp only [applyOps, List.foldl_cons, List.foldl_nil]
  rw [getRow_updateStatus_self
        (getRow_updateTrigger_self
          (getRow_updateStatus_self ha .active (some a.attempt_count) tnow) (tnow + v.retry_delay))
        .scheduled (some (a.attempt_count + 1)) tnow]
  rfl

/-- Frame rule: one action's processing leaves every other row untouched. -/
lemma processAction_frame {s : Store} {a : Row} {v : Verdict} {tnow : Nat} {j : Nat}
    (hj : j ≠ a.id) :
    getRow (applyOps s (processAction a v tnow).ops) j = getRow s j := by
  apply getRow_applyOps_not_target
  intro op hop
  rcases processAction_ops_target op hop with ⟨_, htar⟩
  by_cases h : op.targetsId j = true
  · exact absurd (htar j h) hj
  · simpa using h

/-! ## The per-row evolution induction -/

lemma evolveOk_cons (P : Row → Row → Prop) (s : Store) (op : StoreOp)
    (ops : List StoreOp) :
    EvolveOk P s (op :: ops) ↔
      (∀ id r r', getRow s id = some r → getRow (applyOp s op) id = some r' → P r r') ∧
      EvolveOk P (applyOp s op) ops :=
  Iff.rfl

lemma applyOps_cons (s : Store) (op : StoreOp) (ops : List StoreOp) :
    applyOps s (op :: ops) = applyOps (applyOp s op) ops :=
  rfl

lemma evolveOk_append (P : Row → Row → Prop) :
    ∀ (l₁ : List StoreOp) (s : Store) (l₂ : List StoreOp),
      EvolveOk P s (l₁ ++ l₂) ↔ EvolveOk P s l₁ ∧ EvolveOk P (applyOps s l₁) l₂ := by
  intro l₁
  induction l₁ with
  | nil => intro s l₂; simp [EvolveOk, applyOps]
  | cons op rest ih =>
      intro s l₂
      rw [List.cons_append, evolveOk_cons, evolveOk_cons, applyOps_cons,
          ih (applyOp s op) l₂, and_assoc]

lemma evolve_step_updateStatus {P : Row → Row → Prop} (hrefl : ∀ r, P r r)
    {s : Store} {tid : Nat} {ra : Row} (ha : getRow s tid = some ra)
    {st : Status} {cnt : Option Nat} {now : Nat}
    (hP : P ra (applyStatusRow ra st cnt now)) :
    ∀ id r r', getRow s id = some r →
      getRow (applyOp s (.updateStatus tid st cnt now)) id = some r' → P r r' := by
  intro id r r' hr hr'
  rw [getRow_updateStatus, hr] at hr'
  simp only [Option.map_some'] at hr'
  by_cases h : r.id = tid
  · have hid : id = tid := by rw [← getRow_id hr, h]
    subst hid
    have hra : ra = r := Option.some.inj (ha.symm.trans hr)
    subst hra
    rw [if_pos h] at hr'
    have := Option.some.inj hr'
    subst this
    exact hP
  · rw [if_neg h] at hr'
    have := Option.some.inj hr'
    subst this
    exact hrefl r

lemma evolve_step_updateTrigger {P : Row → Row → Prop} (hrefl : ∀ r, P r r)
    {s : Store} {tid : Nat} {ra : Row} (ha : getRow s tid = some ra)
    {t : Nat} (hP : P ra { ra with trigger_time := t }) :
    ∀ id r r', getRow s id = some r →
      getRow (applyOp s (.updateTrigger tid t)) id = some r' → P r r' := by
  intro id r r' hr hr'
  rw [getRow_updateTrigger, hr] at hr'
  simp only [Option.map_some'] at hr'
  by_cases h : r.id = tid
  · have hid : id = tid := by rw [← getRow_id hr, h]
    subst hid
    have hra : ra = r := Option.some.inj (ha.symm.trans hr)
    subst hra
    rw [if_pos h] at hr'
    have := Option.some.inj hr'
    subst this
    exact hP
  · rw [if_neg h] at hr'
    have := Option.some.inj hr'
    subst this
    exact hrefl r

/-- Central induction: along the store mutations of one engine tick, every
row evolves only through the primitive row updates the engine performs
(activation with unchanged counter from a non-terminal status, finalization
to `completed`/`expired` from `active`, a trigger-time change, or the retry
step back to `scheduled` with counter `+1` from `active`), or stays put. -/
lemma evolveOk_processDue (P : Row → Row → Prop)
    (hrefl : ∀ r, P r r)
    (hact : ∀ (r : Row) (now : Nat), r.status = .scheduled ∨ r.status = .active →
      P r (applyStatusRow r .active (some r.attempt_count) now))
    (hfin : ∀ (r : Row) (st : Status) (now : Nat), r.status = .active →
      st = .completed ∨ st = .expired → P r (applyStatusRow r st none now))
    (htrig : ∀ (r : Row) (t : Nat), P r { r with trigger_time := t })
    (hretry : ∀ (r : Row) (now : Nat), r.status = .active →
      P r (applyStatusRow r .scheduled (some (r.attempt_count + 1)) now)) :
    ∀ (l : List Row) (s : Store) (oracle : Row → Verdict) (tnow : Nat),
      (∀ a ∈ l, getRow s a.id = some a ∧ (a.status = .scheduled ∨ a.status = .active)) →
      (l.map Row.id).Nodup →
      EvolveOk P s (processDue oracle tnow l).ops := by
  intro l
  induction l with
  | nil => intro s oracle tnow _ _; trivial
  | cons a rest ih =>
      intro s oracle tnow hinv hnd
      obtain ⟨ha, hst⟩ := hinv a (by simp)
      have hndrest : (rest.map Row.id).Nodup := (List.nodup_cons.mp hnd).2
      have hanotin : a.id ∉ rest.map Row.id := (List.nodup_cons.mp hnd).1
      -- the three ops shapes share the first step; prove EvolveOk for the
      -- per-action ops and then recurse on the frame-preserved store
      have hONE : EvolveOk P s (processAction a (oracle a) tnow).ops := by
        set v := oracle a with hv
        by_cases hcompleted : v.completed
        · rw [processAction_completed a tnow hcompleted]
          refine ⟨evolve_step_updateStatus hrefl ha (hact a tnow hst), ?_, trivial⟩
          have ha1 := getRow_updateStatus_self ha .active (some a.attempt_count) tnow
          exact evolve_step_updateStatus hrefl ha1
            (hfin _ .completed tnow (applyStatusRow_status a _ _ _) (Or.inl rfl))
        · by_cases hretryv : v.should_retry
          · rcases hdl : a.retry_until with _ | d
            · rw [processAction_retry (by simpa using hcompleted) hretryv (Or.inl hdl)]
              refine ⟨evolve_step_updateStatus hrefl ha (hact a tnow hst), ?_, ?_, trivial⟩
              · have ha1 := getRow_updateStatus_self ha .active (some a.attempt_count) tnow
                exact evolve_step_updateTrigger hrefl ha1 (htrig _ _)
              · have ha1 := getRow_updateStatus_self ha .active (some a.attempt_count) tnow
                have ha2 := getRow_updateTrigger_self ha1 (tnow + v.retry_delay)
                have hcnt : (applyStatusRow a .active (some a.attempt_count) tnow).attempt_count
                    = a.attempt_count := rfl
                have := evolve_step_updateTrigger hrefl ha1 (htrig _ (tnow + v.retry_delay))
                refine evolve_step_updateStatus hrefl ha2 ?_
                exact hretry _ tnow (applyStatusRow_status a _ _ _)
            · by_cases hpast : d < tnow
              · rw [processAction_expired (by simpa using hcompleted) hretryv hdl hpast]
                refine ⟨evolve_step_updateStatus hrefl ha (hact a tnow hst), ?_, trivial⟩
                have ha1 := getRow_updateStatus_self ha .active (some a.attempt_count) tnow
                exact evolve_step_updateStatus hrefl ha1
                  (hfin _ .expired tnow (applyStatusRow_status a _ _ _) (Or.inr rfl))
              · rw [processAction_retry (by simpa using hcompleted) hretryv
                     (Or.inr ⟨d, hdl, Nat.le_of_not_lt hpast⟩)]
                refine ⟨evolve_step_updateStatus hrefl ha (hact a tnow hst), ?_, ?_, trivial⟩
                · have ha1 := getRow_updateStatus_self ha .active (some a.attempt_count) tnow
                  exact evolve_step_updateTrigger hrefl ha1 (htrig _ _)
                · have ha1 := getRow_updateStatus_self ha .active (some a.attempt_count) tnow
                  have ha2 := getRow_updateTrigger_self ha1 (tnow + v.retry_delay)
                  refine evolve_step_updateStatus hrefl ha2 ?_
                  exact hretry _ tnow (applyStatusRow_status a _ _ _)
          · rw [processAction_defensive a tnow (by simpa using hcompleted)
                 (by simpa using hretryv)]
            refine ⟨evolve_step_updateStatus hrefl ha (hact a tnow hst), ?_, trivial⟩
            have ha1 := getRow_updateStatus_self ha .active (some a.attempt_count) tnow
            exact evolve_step_updateStatus hrefl ha1
              (hfin _ .completed tnow (applyStatusRow_status a _ _ _) (Or.inl rfl))
      unfold processDue
      by_cases hexc : (processAction a (oracle a) tnow).exc
      · rw [if_pos hexc]
        exact hONE
      · rw [if_neg hexc]
        show EvolveOk P s ((processAction a (oracle a) tnow).ops ++ _)
        rw [evolveOk_append]
        refine ⟨hONE, ?_⟩
        apply ih
        · intro b hb
          obtain ⟨hbrow, hbst⟩ := hinv b (by simp [hb])
          have hbne : b.id ≠ a.id := by
            intro hc
            exact hanotin (hc ▸ List.mem_map_of_mem Row.id hb)
          rw [processAction_frame hbne]
          exact ⟨hbrow, hbst⟩
        · exact hndrest

/-! ## Claim theorems: the Store and the engine -/

/-- C10: every call to the Store's status update (`update_action_status`)
stamps `last_attempt` with the current wall-clock time, whether or not an
`attempt_count` is supplied; in particular marking an action `active`,
`completed` or `expired` each overwrite `last_attempt`, so `last_attempt`
does not record only oracle attempts. -/
theorem C10_update_status_stamps_last_attempt :
    (∀ (r : Row) (st : Status) (cnt : Option Nat) (now : Nat),
       (applyStatusRow r st cnt now).last_attempt = some now) ∧
    (∀ (s : Store) (id : Nat) (st : Status) (cnt : Option Nat) (now : Nat)
       (r' : Row), r' ∈ update_action_status s id st cnt now → r'.id = id →
       r'.last_attempt = some now) := by
  constructor
  · exact applyStatusRow_last_attempt
  · intro s id st cnt now r' hmem hid
    unfold update_action_status applyOp at hmem
    rcases List.mem_map.mp hmem with ⟨r, _, heq⟩
    by_cases h : r.id = id
    · rw [if_pos h] at heq
      rw [← heq]
      exact applyStatusRow_last_attempt r st cnt now
    · rw [if_neg h] at heq
      exact absurd (heq ▸ hid) h

/-- Witness for C10: the status update that marks the sample row `active`
(no attempt count supplied) stamps `last_attempt := 5`. -/
theorem C10_update_status_stamps_last_attempt_witness :
    ({ sampleRow with status := .active, last_attempt := some 5 } : Row).last_attempt
      = some 5 := by
  apply C10_update_status_stamps_last_attempt.2 [sampleRow] 1 .active none 5
  · show _ ∈ [({ sampleRow with status := .active, last_attempt := some 5 } : Row)]
    exact List.mem_singleton.mpr rfl
  · rfl

/-- C1 (code bug): the claim requires the engine to insert exactly one
recurring child, but the Store module cannot represent it: the engine's
spawn call (and the dialogue loop's and the repository's own test's create
calls) pass `recurring`/`parent_recurring_id` keyword arguments that
`create_scheduled_action` does not accept, and `ScheduledAction.__init__`
never sets a `recurring` attribute, so the completed branch of the tick
raises `AttributeError` at `action.recurring` and no tick ever performs an
insert. -/
theorem C1_recurring_child_never_inserted :
    ("recurring" ∈ schedulerSpawnKwargs ∧ "parent_recurring_id" ∈ schedulerSpawnKwargs) ∧
    ("recurring" ∉ createScheduledActionParams ∧
     "parent_recurring_id" ∉ createScheduledActionParams) ∧
    "recurring" ∉ scheduledActionInitFields ∧
    (∀ (a : Row) (v : Verdict) (tnow : Nat), v.completed = true →
       (processAction a v tnow).exc = true ∧
       ∀ op ∈ (processAction a v tnow).ops, op.isInsert = false) ∧
    (∀ (s : Store) (oracle : Row → Verdict) (tnow : Nat),
       ∀ op ∈ tickOps s oracle tnow, op.isInsert = false) := by
  refine ⟨⟨by decide, by decide⟩, ⟨by decide, by decide⟩, by decide, ?_, ?_⟩
  · intro a v tnow hv
    refine ⟨(processAction_exc_iff a v tnow).mpr hv, ?_⟩
    intro op hop
    exact (processAction_ops_target op hop).1
  · intro s oracle tnow op hop
    exact (processDue_ops_target _ op hop).1

/-- Witness for C1: a completed verdict on the sample row raises the
recurring-attribute exception and performs no insert. -/
theorem C1_recurring_child_never_inserted_witness :
    (processAction sampleRow completedVerdict 10).exc = true :=
  (C1_recurring_child_never_inserted.2.2.2.1 sampleRow completedVerdict 10 rfl).1

/-- C2 counterexample: with the clock at 100, an LLM answer with
`should_schedule = true` and `trigger_time = 40` (a past instant) is accepted
by `parse_scheduling_request` unchanged, and the scheduling branch submits
`trigger_time = 40` to the Store insert: the stored trigger time is neither
`≥ now` nor bumped to the next day (`40 + 86400`). -/
theorem C2_counterexample_past_trigger_stored :
    parse_scheduling_request (some pastRequest) = some pastRequest ∧
    (scheduling_branch_call "remind me to drink water" pastRequest).trigger_time = 40 ∧
    ¬ (100 ≤ (scheduling_branch_call "remind me to drink water" pastRequest).trigger_time) ∧
    (scheduling_branch_call "remind me to drink water" pastRequest).trigger_time
      ≠ 40 + 86400 := by
  exact ⟨rfl, rfl, by decide, by decide⟩

/-- C2 amended: the core performs no `trigger_time` validation at all — the
scheduling branch passes the LLM's `trigger_time` verbatim to the Store
insert whenever `should_schedule` is true (past-time bumping exists only as
an instruction inside the LLM prompt), so `trigger_time ≥ now` is not
guaranteed at insert time. -/
theorem C2_trigger_time_passthrough :
    ∀ (llm : Option SchedulingRequest) (req : SchedulingRequest) (transcript : String),
      parse_scheduling_request llm = some req →
      llm = some req ∧ req.should_schedule = true ∧
      (scheduling_branch_call transcript req).trigger_time = req.trigger_time := by
  intro llm req transcript h
  cases llm with
  | none => exact absurd h (by simp [parse_scheduling_request])
  | some r =>
      by_cases hs : r.should_schedule
      · have h' : some r = some req := by
          simpa [parse_scheduling_request, hs] using h
        have := Option.some.inj h'
        subst this
        exact ⟨rfl, hs, rfl⟩
      · exact absurd h (by simp [parse_scheduling_request, hs])

/-- Witness for C2 (amended): the sample past-time request is forwarded
verbatim. -/
theorem C2_trigger_time_passthrough_witness :
    (scheduling_branch_call "remind me" pastRequest).trigger_time
      = pastRequest.trigger_time :=
  (C2_trigger_time_passthrough (some pastRequest) pastRequest "remind me" rfl).2.2

lemma le_foldr_max {x : Nat} : ∀ {l : List Nat}, x ∈ l → x ≤ l.foldr max 0 := by
  intro l
  induction l with
  | nil => intro h; cases h
  | cons b t ih =>
      intro h
      rcases List.mem_cons.mp h with h | h
      · subst h; exact le_max_left _ _
      · exact le_trans (ih h) (le_max_right _ _)

/-- C4: starting from rows inserted with status `scheduled`, the Store and
engine operations only ever move a row's status along
`scheduled → active`, `active → completed`, `active → scheduled`,
`scheduled → expired`, `active → expired` (`statusOk`), never changing a
`completed` or `expired` row; inserts create `scheduled` rows and leave
existing rows untouched, and deletes never alter a surviving row. -/
theorem C4_status_transition_invariant :
    (∀ (s : Store), (s.map Row.id).Nodup → ∀ (oracle : Row → Verdict) (tnow : Nat),
       EvolveOk statusOk s (tickOps s oracle tnow)) ∧
    (∀ (s : Store) (cmd : String) (trig : Nat) (mode : String) (ru : Option Nat)
       (ctx : Option String),
       (∀ j r, getRow s j = some r →
          getRow (create_scheduled_action s cmd trig mode ru ctx) j = some r) ∧
       getRow (create_scheduled_action s cmd trig mode ru ctx) (freshId s) =
         some { id := freshId s, command := cmd, trigger_time := trig,
                completion_mode := mode, retry_until := ru, status := .scheduled,
                attempt_count := 0, context := ctx, last_attempt := none }) ∧
    (∀ (s : Store) (id j : Nat) (r : Row), (s.map Row.id).Nodup →
       getRow (delete_scheduled_action s id) j = some r → getRow s j = some r) := by
  refine ⟨?_, ?_, ?_⟩
  · intro s hnd oracle tnow
    apply evolveOk_processDue statusOk
    · intro r; exact Or.inl rfl
    · intro r now hst
      rcases hst with h | h
      · right
        rw [applyStatusRow_status, h]
        exact ⟨rfl, rfl⟩
      · left
        rw [applyStatusRow_status, h]
    · intro r st now hr hst
      right
      rw [applyStatusRow_status, hr]
      rcases hst with h | h <;> subst h <;> exact ⟨rfl, rfl⟩
    · intro r t; exact Or.inl rfl
    · intro r now hr
      right
      rw [applyStatusRow_status, hr]
      exact ⟨rfl, rfl⟩
    · intro a ha
      have := mem_due_iff.mp ha
      exact ⟨getRow_of_mem_nodup hnd this.1, this.2.1⟩
    · exact due_map_id_nodup hnd tnow
  · intro s cmd trig mode ru ctx
    constructor
    · intro j r hr
      show getRow (s ++ [_]) j = some r
      unfold getRow at hr ⊢
      rw [List.find?_append, hr]
      rfl
    · show getRow (s ++ [_]) (freshId s) = _
      unfold getRow
      rw [List.find?_append]
      have hnone : List.find? (fun r => decide (r.id = freshId s)) s = none := by
        rw [List.find?_eq_none]
        intro x hx
        simp only [decide_eq_true_eq]
        intro hc
        have hle : x.id ≤ (s.map Row.id).foldr max 0 :=
          le_foldr_max (List.mem_map_of_mem Row.id hx)
        rw [hc] at hle
        unfold freshId at hle
        omega
      rw [hnone]
      simp
  · intro s id j r hnd hr
    have hmem : r ∈ s := List.mem_of_mem_filter (getRow_mem hr)
    have := getRow_of_mem_nodup hnd hmem
    rw [getRow_id hr] at this
    exact this

/-- Witness for C4: instantiated on the one-row sample store with the
always-retry oracle at tick instant 10, and on a concrete delete. -/
theorem C4_status_transition_invariant_witness :
    EvolveOk statusOk [sampleRow] (tickOps [sampleRow] (fun _ => retryVerdict) 10) ∧
    getRow [sampleRow] 1 = some sampleRow := by
  constructor
  · exact C4_status_transition_invariant.1 [sampleRow] (by decide) (fun _ => retryVerdict) 10
  · exact C4_status_transition_invariant.2.2 [sampleRow] 7 1 sampleRow (by decide) rfl

/-- C5: `attempt_count` is non-decreasing along every engine tick
(`countMono`), a non-finalizing oracle invocation (verdict not completed,
retry requested, `retry_until` absent or not yet passed) increases it by
exactly one, and finalizing outcomes (completed verdict, defensive
completion, expiry) leave it unchanged. -/
theorem C5_retry_monotonicity :
    (∀ (s : Store), (s.map Row.id).Nodup → ∀ (oracle : Row → Verdict) (tnow : Nat),
       EvolveOk countMono s (tickOps s oracle tnow)) ∧
    (∀ (s : Store) (a : Row) (v : Verdict) (tnow : Nat),
       getRow s a.id = some a → v.completed = false → v.should_retry = true →
       (a.retry_until = none ∨ ∃ d, a.retry_until = some d ∧ tnow ≤ d) →
       ∃ r', getRow (applyOps s (processAction a v tnow).ops) a.id = some r' ∧
         r'.attempt_count = a.attempt_count + 1) ∧
    (∀ (s : Store) (a : Row) (v : Verdict) (tnow : Nat),
       getRow s a.id = some a →
       (v.completed = true ∨ v.should_retry = false ∨
         (∃ d, a.retry_until = some d ∧ d < tnow)) →
       ∃ r', getRow (applyOps s (processAction a v tnow).ops) a.id = some r' ∧
         r'.attempt_count = a.attempt_count) := by
  refine ⟨?_, ?_, ?_⟩
  · intro s hnd oracle tnow
    apply evolveOk_processDue countMono
    · intro r; exact le_refl _
    · intro r now _; exact le_of_eq rfl
    · intro r st now _ _; exact le_of_eq rfl
    · intro r t; exact le_of_eq rfl
    · intro r now _
      show r.attempt_count ≤ (applyStatusRow r .scheduled (some (r.attempt_count + 1)) now).attempt_count
      show r.attempt_count ≤ r.attempt_count + 1
      omega
    · intro a ha
      have := mem_due_iff.mp ha
      exact ⟨getRow_of_mem_nodup hnd this.1, this.2.1⟩
    · exact due_map_id_nodup hnd tnow
  · intro s a v tnow ha hc hr hd
    exact ⟨_, net_retry ha hc hr hd, rfl⟩
  · intro s a v tnow ha hfin
    by_cases hc : v.completed
    · exact ⟨_, net_completed ha hc, rfl⟩
    · by_cases hr : v.should_retry
      · have hd : ∃ d, a.retry_until = some d ∧ d < tnow := by
          rcases hfin with h | h | h
          · exact absurd h (by simpa using hc)
          · exact absurd hr (by simp [h])
          · exact h
        rcases hd with ⟨d, hdl, hlt⟩
        exact ⟨_, net_expired ha (by simpa using hc) hr hdl hlt, rfl⟩
      · exact ⟨_, net_defensive ha (by simpa using hc) (by simpa using hr), rfl⟩

/-- Witness for C5: on the sample store, a retry verdict at instant 10
(before the deadline 30) bumps the counter from 2 to 3, and a completed
verdict leaves it at 2; monotonicity instantiated on the same store. -/
theorem C5_retry_monotonicity_witness :
    EvolveOk countMono [sampleRow] (tickOps [sampleRow] (fun _ => retryVerdict) 10) ∧
    (∃ r', getRow (applyOps [sampleRow] (processAction sampleRow retryVerdict 10).ops) 1
        = some r' ∧ r'.attempt_count = 3) ∧
    (∃ r', getRow (applyOps [sampleRow] (processAction sampleRow completedVerdict 10).ops) 1
        = some r' ∧ r'.attempt_count = 2) := by
  refine ⟨C5_retry_monotonicity.1 [sampleRow] (by decide) (fun _ => retryVerdict) 10, ?_, ?_⟩
  · exact C5_retry_monotonicity.2.1 [sampleRow] sampleRow retryVerdict 10 rfl rfl rfl
      (Or.inr ⟨30, rfl, by omega⟩)
  · exact C5_retry_monotonicity.2.2 [sampleRow] sampleRow completedVerdict 10 rfl
      (Or.inl rfl)

/-! ## Terminal rows, id preservation, and ticking on -/

lemma due_singleton (r : Row) (t : Nat)
    (h1 : r.status = .scheduled ∨ r.status = .active) (h2 : r.trigger_time ≤ t) :
    get_due_actions [r] t = [r] := by
  have hc : ((decide (r.status = .scheduled) || decide (r.status = .active))
      && decide (r.trigger_time ≤ t)) = true := by
    rcases h1 with h | h <;> simp [h, h2]
  unfold get_due_actions
  rw [List.filter_cons, if_pos hc, List.filter_nil, List.mergeSort_singleton]

lemma ids_applyOp {s : Store} {op : StoreOp} (h : op.isInsert = false) :
    (applyOp s op).map Row.id = s.map Row.id := by
  cases op with
  | updateStatus i st cnt now =>
      show (s.map _).map Row.id = _
      rw [List.map_map]
      apply List.map_congr_left
      intro r _
      by_cases hr : r.id = i <;> simp [Function.comp, hr, applyStatusRow_id]
  | updateTrigger i t =>
      show (s.map _).map Row.id = _
      rw [List.map_map]
      apply List.map_congr_left
      intro r _
      by_cases hr : r.id = i <;> simp [Function.comp, hr]
  | insert r => simp [StoreOp.isInsert] at h

lemma ids_applyOps :
    ∀ (ops : List StoreOp) (s : Store), (∀ op ∈ ops, op.isInsert = false) →
      (applyOps s ops).map Row.id = s.map Row.id := by
  intro ops
  induction ops with
  | nil => intro s _; rfl
  | cons op rest ih =>
      intro s h
      rw [applyOps_cons, ih (applyOp s op) (fun o ho => h o (by simp [ho])),
          ids_applyOp (h op (by simp))]

lemma tick_ids (s : Store) (oracle : Row → Verdict) (t : Nat) :
    (tick s oracle t).map Row.id = s.map Row.id :=
  ids_applyOps _ _ (fun op hop => (processDue_ops_target _ op hop).1)

lemma terminal_not_due {s : Store} {j : Nat} {r : Row}
    (hnd : (s.map Row.id).Nodup) (hr : getRow s j = some r)
    (hterm : terminalStatus r.status = true) (t : Nat) :
    j ∉ (get_due_actions s t).map Row.id := by
  intro hj
  rcases List.mem_map.mp hj with ⟨a, ha, haj⟩
  have hsub := mem_due_iff.mp ha
  have hget := getRow_of_mem_nodup hnd hsub.1
  rw [haj, hr] at hget
  have hra : r = a := Option.some.inj hget
  rcases hsub.2.1 with h | h <;> rw [hra, h] at hterm <;> exact absurd hterm (by decide)

lemma tick_preserves_terminal {s : Store} {j : Nat} {r : Row}
    (hnd : (s.map Row.id).Nodup) (hr : getRow s j = some r)
    (hterm : terminalStatus r.status = true) (oracle : Row → Verdict) (t : Nat) :
    getRow (tick s oracle t) j = some r := by
  unfold tick
  rw [getRow_applyOps_not_target _ _ ?_]
  · exact hr
  · intro op hop
    by_cases htar : op.targetsId j = true
    · exact absurd ((processDue_ops_target _ op hop).2 j htar)
        (terminal_not_due hnd hr hterm t)
    · simpa using htar

lemma engineRun_preserves_terminal :
    ∀ (steps : List ((Row → Verdict) × Nat)) (s : Store) (j : Nat) (r : Row),
      (s.map Row.id).Nodup → getRow s j = some r → terminalStatus r.status = true →
      getRow (engineRun s steps) j = some r := by
  intro steps
  induction steps with
  | nil => intro s j r _ hr _; exact hr
  | cons p rest ih =>
      intro s j r hnd hr hterm
      show getRow (engineRun (tick s p.1 p.2) rest) j = some r
      exact ih (tick s p.1 p.2) j r (by rw [tick_ids]; exact hnd)
        (tick_preserves_terminal hnd hr hterm p.1 p.2) hterm

/-- C3 counterexample: the sample action has `retry_until = 30`; at a tick
at instant 40 (strictly past the deadline) with a retry verdict, the action
is indeed marked `expired` — but the Completion Oracle IS invoked once more
at that tick (`tickOracleCalls = 1`, not 0 as the claim requires). -/
theorem C3_counterexample_oracle_invoked_at_expiry :
    getRow (tick [sampleRow] (fun _ => retryVerdict) 40) 1 =
      some { sampleRow with status := .expired, last_attempt := some 40 } ∧
    tickOracleCalls [sampleRow] (fun _ => retryVerdict) 40 = 1 ∧
    ¬ tickOracleCalls [sampleRow] (fun _ => retryVerdict) 40 = 0 := by
  have hdue : get_due_actions [sampleRow] 40 = [sampleRow] :=
    due_singleton sampleRow 40 (Or.inl rfl) (by decide)
  refine ⟨?_, ?_, ?_⟩
  · unfold tick tickOps
    rw [hdue]
    rfl
  · unfold tickOracleCalls
    rw [hdue]
    rfl
  · unfold tickOracleCalls
    rw [hdue]
    decide

/-- C3 amended: for a due action with `retry_until` set, a tick strictly
after the deadline still invokes the Completion Oracle exactly once for the
action; if that verdict is non-completed with `should_retry`, the action is
marked `expired` at that tick, and a terminal (`expired` or `completed`) row
is never due again and never altered by any further engine run. -/
theorem C3_expiry_after_one_more_oracle_invocation :
    (∀ (a : Row) (v : Verdict) (tnow d : Nat),
       a.retry_until = some d → d < tnow →
       (processAction a v tnow).oracleCalls = 1 ∧
       (v.completed = false → v.should_retry = true →
         ∀ (s : Store), getRow s a.id = some a →
           getRow (applyOps s (processAction a v tnow).ops) a.id =
             some { a with status := .expired, last_attempt := some tnow })) ∧
    (∀ (s : Store) (j : Nat) (r : Row), (s.map Row.id).Nodup →
       getRow s j = some r → terminalStatus r.status = true →
       (∀ t, j ∉ (get_due_actions s t).map Row.id) ∧
       (∀ (steps : List ((Row → Verdict) × Nat)),
          getRow (engineRun s steps) j = some r)) := by
  constructor
  · intro a v tnow d hd hlt
    refine ⟨processAction_oracleCalls a v tnow, ?_⟩
    intro hc hr s ha
    exact net_expired ha hc hr hd hlt
  · intro s j r hnd hr hterm
    exact ⟨fun t => terminal_not_due hnd hr hterm t,
           fun steps => engineRun_preserves_terminal steps s j r hnd hr hterm⟩

/-- Witness for C3 (amended): instantiated on the sample row at instant 40
with the retry verdict, and on the resulting expired store. -/
theorem C3_expiry_after_one_more_oracle_invocation_witness :
    (processAction sampleRow retryVerdict 40).oracleCalls = 1 ∧
    getRow (applyOps [sampleRow] (processAction sampleRow retryVerdict 40).ops) 1 =
      some { sampleRow with status := .expired, last_attempt := some 40 } ∧
    getRow (engineRun [{ sampleRow with status := .expired }]
        [(fun _ => retryVerdict, 50)]) 1 = some { sampleRow with status := .expired } := by
  refine ⟨?_, ?_, ?_⟩
  · exact (C3_expiry_after_one_more_oracle_invocation.1 sampleRow retryVerdict 40 30
      rfl (by omega)).1
  · exact (C3_expiry_after_one_more_oracle_invocation.1 sampleRow retryVerdict 40 30
      rfl (by omega)).2 rfl rfl [sampleRow] rfl
  · exact (C3_expiry_after_one_more_oracle_invocation.2
      [{ sampleRow with status := .expired }] 1 { sampleRow with status := .expired }
      (by decide) rfl rfl).2 [(fun _ => retryVerdict, 50)]

/-- C6 counterexample: with a completed verdict on the sample due action, an
exception is raised inside the tick (the recurring-attribute access), yet
the failing action is left in status `completed`, not `active`. -/
theorem C6_counterexample_failing_action_not_active :
    tickExc [sampleRow] (fun _ => completedVerdict) 10 = true ∧
    getRow (tick [sampleRow] (fun _ => completedVerdict) 10) 1 =
      some { sampleRow with status := .completed, last_attempt := some 10 } ∧
    ({ sampleRow with status := .completed, last_attempt := some 10 } : Row).status
      ≠ .active := by
  have hdue : get_due_actions [sampleRow] 10 = [sampleRow] :=
    due_singleton sampleRow 10 (Or.inl rfl) (by decide)
  refine ⟨?_, ?_, by decide⟩
  · unfold tickExc
    rw [hdue]
    rfl
  · unfold tick tickOps
    rw [hdue]
    rfl

/-- C6 amended: every exception raised while processing a due action is
caught inside the engine worker — the tick is total and the worker proceeds
to the next tick — and it aborts the remaining due actions of that tick; but
the failing action is left in the status written by the last store update
before the exception, not necessarily `active`: the one exception the code
as written raises is the recurring-attribute access after a completed
verdict, which leaves the failing action `completed` with `attempt_count`
unchanged. -/
theorem C6_exceptions_caught_but_action_completed :
    (∀ (a : Row) (v : Verdict) (tnow : Nat),
       (processAction a v tnow).exc = true ↔ v.completed = true) ∧
    (∀ (s : Store) (a : Row) (v : Verdict) (tnow : Nat),
       getRow s a.id = some a → (processAction a v tnow).exc = true →
       ∃ r', getRow (applyOps s (processAction a v tnow).ops) a.id = some r' ∧
         r'.status = .completed ∧ r'.attempt_count = a.attempt_count) ∧
    (∀ (oracle : Row → Verdict) (tnow : Nat) (a : Row) (l : List Row),
       (processAction a (oracle a) tnow).exc = true →
       processDue oracle tnow (a :: l) = processAction a (oracle a) tnow) ∧
    (∀ (s : Store) (oracle : Row → Verdict) (tnow : Nat)
       (rest : List ((Row → Verdict) × Nat)),
       engineRun s ((oracle, tnow) :: rest) = engineRun (tick s oracle tnow) rest) := by
  refine ⟨processAction_exc_iff, ?_, ?_, ?_⟩
  · intro s a v tnow ha hexc
    exact ⟨_, net_completed ha ((processAction_exc_iff a v tnow).mp hexc), rfl, rfl⟩
  · intro oracle tnow a l hexc
    unfold processDue
    rw [if_pos hexc]
  · intro s oracle tnow rest
    rfl

/-- Witness for C6 (amended): instantiated on the sample row with the
completed verdict at instant 10. -/
theorem C6_exceptions_caught_but_action_completed_witness :
    ((processAction sampleRow completedVerdict 10).exc = true) ∧
    (∃ r', getRow (applyOps [sampleRow] (processAction sampleRow completedVerdict 10).ops) 1
       = some r' ∧ r'.status = .completed ∧ r'.attempt_count = 2) ∧
    processDue (fun _ => completedVerdict) 10 [sampleRow, sampleRow] =
      processAction sampleRow completedVerdict 10 := by
  refine ⟨?_, ?_, ?_⟩
  · exact (C6_exceptions_caught_but_action_completed.1 sampleRow completedVerdict 10).mpr rfl
  · exact C6_exceptions_caught_but_action_completed.2.1 [sampleRow] sampleRow
      completedVerdict 10 rfl
      ((C6_exceptions_caught_but_action_completed.1 sampleRow completedVerdict 10).mpr rfl)
  · exact C6_exceptions_caught_but_action_completed.2.2.1 (fun _ => completedVerdict) 10
      sampleRow [sampleRow]
      ((C6_exceptions_caught_but_action_completed.1 sampleRow completedVerdict 10).mpr rfl)

/-! ## Lemmas about the servo controller -/

lemma move_servo_state (c : Servo) (ch : ℤ) (v : ℚ) : (move_servo c ch v).1 = c := by
  unfold move_servo
  split_ifs <;> rfl

lemma move_stepper_state (c : Servo) (dir : String) (deg : ℚ) :
    (move_stepper c dir deg).1 = c := by
  simp only [move_stepper]
  split_ifs <;> rfl

lemma clamp_servo_bounds (x : ℚ) : 0 ≤ clamp_servo x ∧ clamp_servo x ≤ 100 := by
  unfold clamp_servo
  exact ⟨le_max_left _ _, max_le (by norm_num) (min_le_left _ _)⟩

lemma clamp_rotation_bounds (x : ℚ) :
    -180 ≤ clamp_rotation x ∧ clamp_rotation x ≤ 180 := by
  unfold clamp_rotation MIN_STEPPER_DEG MAX_STEPPER_DEG
  exact ⟨le_max_left _ _, max_le (by norm_num) (min_le_left _ _)⟩

lemma clamp_servo_delta {x s : ℚ} (h0 : 0 ≤ x) (h1 : x ≤ 100) :
    |clamp_servo (x + s) - x| ≤ |s| := by
  unfold clamp_servo
  rcases le_total (x + s) 0 with h | h
  · rw [min_eq_right (by linarith : x + s ≤ 100), max_eq_left h, abs_le]
    constructor
    · have := neg_abs_le s
      linarith
    · have := abs_nonneg s
      linarith
  · rcases le_total (x + s) 100 with h2 | h2
    · rw [min_eq_right h2, max_eq_right h, add_sub_cancel_left]
    · rw [min_eq_left h2, max_eq_right (by norm_num : (0:ℚ) ≤ 100), abs_le]
      constructor
      · have := abs_nonneg s
        linarith
      · have := le_abs_self s
        linarith

lemma safe_servo_move_abs (c : Servo) (p t : ℚ) (h : 0 ≤ c.max_servo_change) :
    |safe_servo_move c p t| ≤ c.max_servo_change := by
  unfold safe_servo_move
  split_ifs with h1 h2
  · rw [abs_of_nonneg h]
  · rw [abs_neg, abs_of_nonneg h]
  · exact le_of_not_lt h1

lemma move_servo_lines {c : Servo} {chv vv : ℚ} {ch' : ℤ} {ch : ℤ}
    (h : Line.servo ch chv ∈ (move_servo c ch' vv).2.1) :
    0 ≤ ch ∧ ch ≤ 15 ∧ 0 ≤ chv ∧ chv ≤ 100 := by
  revert h
  unfold move_servo
  split_ifs with h1 h2 <;> intro h <;> simp at h
  obtain ⟨rfl, rfl⟩ := h
  exact ⟨h2.1, h2.2.1, h2.2.2.1, h2.2.2.2⟩

lemma move_stepper_no_servo {c : Servo} {dir : String} {deg vv : ℚ} {ch : ℤ}
    (h : Line.servo ch vv ∈ (move_stepper c dir deg).2.1) : False := by
  revert h
  simp only [move_stepper]
  split_ifs <;> intro h <;> simp at h

lemma move_up_fields (c : Servo) (v : ℚ) :
    (move_up c v).1.translation_servo_pos = c.translation_servo_pos ∧
    (move_up c v).1.rotation_stepper_deg = c.rotation_stepper_deg ∧
    (move_up c v).1.max_servo_change = c.max_servo_change := by
  simp only [move_up]
  split_ifs <;> simp [move_servo_state]

lemma move_down_fields (c : Servo) (v : ℚ) :
    (move_down c v).1.translation_servo_pos = c.translation_servo_pos ∧
    (move_down c v).1.rotation_stepper_deg = c.rotation_stepper_deg ∧
    (move_down c v).1.max_servo_change = c.max_servo_change := by
  simp only [move_down]
  split_ifs <;> simp [move_servo_state]

lemma move_forward_fields (c : Servo) (v : ℚ) :
    (move_forward c v).1.elevation_servo_pos = c.elevation_servo_pos ∧
    (move_forward c v).1.rotation_stepper_deg = c.rotation_stepper_deg ∧
    (move_forward c v).1.max_servo_change = c.max_servo_change := by
  simp only [move_forward]
  split_ifs <;> simp [move_servo_state]

lemma move_backward_fields (c : Servo) (v : ℚ) :
    (move_backward c v).1.elevation_servo_pos = c.elevation_servo_pos ∧
    (move_backward c v).1.rotation_stepper_deg = c.rotation_stepper_deg ∧
    (move_backward c v).1.max_servo_change = c.max_servo_change := by
  simp only [move_backward]
  split_ifs <;> simp [move_servo_state]

lemma move_left_fields (c : Servo) (d : ℚ) :
    (move_left c d).1.elevation_servo_pos = c.elevation_servo_pos ∧
    (move_left c d).1.translation_servo_pos = c.translation_servo_pos ∧
    (move_left c d).1.max_servo_change = c.max_servo_change ∧
    ((move_left c d).1.rotation_stepper_deg = c.rotation_stepper_deg ∨
     (move_left c d).1.rotation_stepper_deg = clamp_rotation (c.rotation_stepper_deg - |d|)) := by
  simp only [move_left]
  split_ifs with h1 h2
  · exact ⟨by simp [move_stepper_state], by simp [move_stepper_state],
           by simp [move_stepper_state], Or.inr rfl⟩
  · exact ⟨by simp [move_stepper_state], by simp [move_stepper_state],
           by simp [move_stepper_state], Or.inl (by simp [move_stepper_state])⟩
  · exact ⟨rfl, rfl, rfl, Or.inl rfl⟩

lemma move_right_fields (c : Servo) (d : ℚ) :
    (move_right c d).1.elevation_servo_pos = c.elevation_servo_pos ∧
    (move_right c d).1.translation_servo_pos = c.translation_servo_pos ∧
    (move_right c d).1.max_servo_change = c.max_servo_change ∧
    ((move_right c d).1.rotation_stepper_deg = c.rotation_stepper_deg ∨
     (move_right c d).1.rotation_stepper_deg = clamp_rotation (c.rotation_stepper_deg + |d|)) := by
  simp only [move_right]
  split_ifs with h1 h2
  · exact ⟨by simp [move_stepper_state], by simp [move_stepper_state],
           by simp [move_stepper_state], Or.inr rfl⟩
  · exact ⟨by simp [move_stepper_state], by simp [move_stepper_state],
           by simp [move_stepper_state], Or.inl (by simp [move_stepper_state])⟩
  · exact ⟨rfl, rfl, rfl, Or.inl rfl⟩

lemma move_up_elev (c : Servo) (v : ℚ) (hmax : 0 ≤ c.max_servo_change)
    (h0 : 0 ≤ c.elevation_servo_pos) (h1 : c.elevation_servo_pos ≤ 100) :
    |(move_up c v).1.elevation_servo_pos - c.elevation_servo_pos| ≤ c.max_servo_change ∧
    0 ≤ (move_up c v).1.elevation_servo_pos ∧ (move_up c v).1.elevation_servo_pos ≤ 100 := by
  simp only [move_up]
  split_ifs with hne hsh
  · exact ⟨le_trans (clamp_servo_delta h0 h1) (safe_servo_move_abs c _ _ hmax),
           (clamp_servo_bounds _).1, (clamp_servo_bounds _).2⟩
  · rw [move_servo_state]
    simp [hmax, h0, h1]
  · simp [hmax, h0, h1]

lemma move_down_elev (c : Servo) (v : ℚ) (hmax : 0 ≤ c.max_servo_change)
    (h0 : 0 ≤ c.elevation_servo_pos) (h1 : c.elevation_servo_pos ≤ 100) :
    |(move_down c v).1.elevation_servo_pos - c.elevation_servo_pos| ≤ c.max_servo_change ∧
    0 ≤ (move_down c v).1.elevation_servo_pos ∧ (move_down c v).1.elevation_servo_pos ≤ 100 := by
  simp only [move_down]
  split_ifs with hne hsh
  · exact ⟨le_trans (clamp_servo_delta h0 h1) (safe_servo_move_abs c _ _ hmax),
           (clamp_servo_bounds _).1, (clamp_servo_bounds _).2⟩
  · rw [move_servo_state]
    simp [hmax, h0, h1]
  · simp [hmax, h0, h1]

lemma move_forward_trans (c : Servo) (v : ℚ) (hmax : 0 ≤ c.max_servo_change)
    (h0 : 0 ≤ c.translation_servo_pos) (h1 : c.translation_servo_pos ≤ 100) :
    |(move_forward c v).1.translation_servo_pos - c.translation_servo_pos| ≤ c.max_servo_change ∧
    0 ≤ (move_forward c v).1.translation_servo_pos ∧
    (move_forward c v).1.translation_servo_pos ≤ 100 := by
  simp only [move_forward]
  split_ifs with hne hsh
  · exact ⟨le_trans (clamp_servo_delta h0 h1) (safe_servo_move_abs c _ _ hmax),
           (clamp_servo_bounds _).1, (clamp_servo_bounds _).2⟩
  · rw [move_servo_state]
    simp [hmax, h0, h1]
  · simp [hmax, h0, h1]

lemma move_backward_trans (c : Servo) (v : ℚ) (hmax : 0 ≤ c.max_servo_change)
    (h0 : 0 ≤ c.translation_servo_pos) (h1 : c.translation_servo_pos ≤ 100) :
    |(move_backward c v).1.translation_servo_pos - c.translation_servo_pos| ≤ c.max_servo_change ∧
    0 ≤ (move_backward c v).1.translation_servo_pos ∧
    (move_backward c v).1.translation_servo_pos ≤ 100 := by
  simp only [move_backward]
  split_ifs with hne hsh
  · exact ⟨le_trans (clamp_servo_delta h0 h1) (safe_servo_move_abs c _ _ hmax),
           (clamp_servo_bounds _).1, (clamp_servo_bounds _).2⟩
  · rw [move_servo_state]
    simp [hmax, h0, h1]
  · simp [hmax, h0, h1]

lemma move_stepper_left_success {c : Servo} {deg : ℚ}
    (h : (move_stepper c "left" deg).2.2 = true) :
    c.arduinoConnected = true ∧
    MIN_STEPPER_DEG ≤ c.rotation_stepper_deg - deg ∧
    c.rotation_stepper_deg - deg ≤ MAX_STEPPER_DEG := by
  by_cases hc : c.arduinoConnected
  · by_cases henv : c.rotation_stepper_deg - deg < MIN_STEPPER_DEG ∨
        MAX_STEPPER_DEG < c.rotation_stepper_deg - deg
    · exfalso
      have hfail : move_stepper c "left" deg = (c, [], false) := by
        simp [move_stepper, hc, henv]
      rw [hfail] at h
      simp at h
    · push_neg at henv
      exact ⟨hc, henv.1, henv.2⟩
  · exfalso
    have hfail : move_stepper c "left" deg = (c, [], false) := by
      simp [move_stepper, hc]
    rw [hfail] at h
    simp at h

lemma move_stepper_right_success {c : Servo} {deg : ℚ}
    (h : (move_stepper c "right" deg).2.2 = true) :
    c.arduinoConnected = true ∧
    MIN_STEPPER_DEG ≤ c.rotation_stepper_deg + deg ∧
    c.rotation_stepper_deg + deg ≤ MAX_STEPPER_DEG := by
  by_cases hc : c.arduinoConnected
  · by_cases henv : c.rotation_stepper_deg + deg < MIN_STEPPER_DEG ∨
        MAX_STEPPER_DEG < c.rotation_stepper_deg + deg
    · exfalso
      have hfail : move_stepper c "right" deg = (c, [], false) := by
        simp [move_stepper, hc, henv]
      rw [hfail] at h
      simp at h
    · push_neg at henv
      exact ⟨hc, henv.1, henv.2⟩
  · exfalso
    have hfail : move_stepper c "right" deg = (c, [], false) := by
      simp [move_stepper, hc]
    rw [hfail] at h
    simp at h

lemma move_stepper_fail_lines {c : Servo} {dir : String} {deg : ℚ}
    (h : (move_stepper c dir deg).2.2 = false) :
    (move_stepper c dir deg).2.1 = [] := by
  revert h
  simp only [move_stepper]
  split_ifs <;> intro h <;> first | rfl | simp at h

lemma move_left_noop {c : Servo} {d : ℚ} (h : c.rotation_stepper_deg - |d| < -180) :
    move_left c d = (c, [], false) := by
  have hclamp : clamp_rotation (c.rotation_stepper_deg - |d|) = -180 := by
    unfold clamp_rotation MIN_STEPPER_DEG MAX_STEPPER_DEG
    rw [min_eq_right (le_of_lt (lt_of_lt_of_le h (by norm_num)))]
    exact max_eq_left (le_of_lt h)
  simp only [move_left, hclamp]
  split_ifs with h1 h2
  · exfalso
    rcases move_stepper_left_success h2 with ⟨_, hge, _⟩
    rw [MIN_STEPPER_DEG] at hge
    linarith
  · rw [move_stepper_state, move_stepper_fail_lines (by simpa using h2)]
  · rfl

lemma move_right_noop {c : Servo} {d : ℚ} (h : 180 < c.rotation_stepper_deg + |d|) :
    move_right c d = (c, [], false) := by
  have hclamp : clamp_rotation (c.rotation_stepper_deg + |d|) = 180 := by
    unfold clamp_rotation MIN_STEPPER_DEG MAX_STEPPER_DEG
    rw [min_eq_left (le_of_lt h)]
    exact max_eq_right (by norm_num)
  simp only [move_right, hclamp]
  split_ifs with h1 h2
  · exfalso
    rcases move_stepper_right_success h2 with ⟨_, _, hle⟩
    rw [MAX_STEPPER_DEG] at hle
    linarith
  · rw [move_stepper_state, move_stepper_fail_lines (by simpa using h2)]
  · rfl

lemma move_up_lines {c : Servo} {v vv : ℚ} {ch : ℤ}
    (h : Line.servo ch vv ∈ (move_up c v).2.1) :
    0 ≤ ch ∧ ch ≤ 15 ∧ 0 ≤ vv ∧ vv ≤ 100 := by
  revert h
  simp only [move_up]
  split_ifs <;> intro h
  · exact move_servo_lines h
  · exact move_servo_lines h
  · simp at h

lemma move_down_lines {c : Servo} {v vv : ℚ} {ch : ℤ}
    (h : Line.servo ch vv ∈ (move_down c v).2.1) :
    0 ≤ ch ∧ ch ≤ 15 ∧ 0 ≤ vv ∧ vv ≤ 100 := by
  revert h
  simp only [move_down]
  split_ifs <;> intro h
  · exact move_servo_lines h
  · exact move_servo_lines h
  · simp at h

lemma move_forward_lines {c : Servo} {v vv : ℚ} {ch : ℤ}
    (h : Line.servo ch vv ∈ (move_forward c v).2.1) :
    0 ≤ ch ∧ ch ≤ 15 ∧ 0 ≤ vv ∧ vv ≤ 100 := by
  revert h
  simp only [move_forward]
  split_ifs <;> intro h
  · exact move_servo_lines h
  · exact move_servo_lines h
  · simp at h

lemma move_backward_lines {c : Servo} {v vv : ℚ} {ch : ℤ}
    (h : Line.servo ch vv ∈ (move_backward c v).2.1) :
    0 ≤ ch ∧ ch ≤ 15 ∧ 0 ≤ vv ∧ vv ≤ 100 := by
  revert h
  simp only [move_backward]
  split_ifs <;> intro h
  · exact move_servo_lines h
  · exact move_servo_lines h
  · simp at h

lemma move_left_lines {c : Servo} {d vv : ℚ} {ch : ℤ}
    (h : Line.servo ch vv ∈ (move_left c d).2.1) : False := by
  revert h
  simp only [move_left]
  split_ifs <;> intro h
  · exact move_stepper_no_servo h
  · exact move_stepper_no_servo h
  · simp at h

lemma move_right_lines {c : Servo} {d vv : ℚ} {ch : ℤ}
    (h : Line.servo ch vv ∈ (move_right c d).2.1) : False := by
  revert h
  simp only [move_right]
  split_ifs <;> intro h
  · exact move_stepper_no_servo h
  · exact move_stepper_no_servo h
  · simp at h

lemma move_up_elev_cases (c : Servo) (v : ℚ) :
    (move_up c v).1.elevation_servo_pos = c.elevation_servo_pos ∨
    ∃ x, (move_up c v).1.elevation_servo_pos = clamp_servo x := by
  simp only [move_up]
  split_ifs
  · exact Or.inr ⟨_, rfl⟩
  · exact Or.inl (by rw [move_servo_state])
  · exact Or.inl rfl

lemma move_down_elev_cases (c : Servo) (v : ℚ) :
    (move_down c v).1.elevation_servo_pos = c.elevation_servo_pos ∨
    ∃ x, (move_down c v).1.elevation_servo_pos = clamp_servo x := by
  simp only [move_down]
  split_ifs
  · exact Or.inr ⟨_, rfl⟩
  · exact Or.inl (by rw [move_servo_state])
  · exact Or.inl rfl

lemma move_forward_trans_cases (c : Servo) (v : ℚ) :
    (move_forward c v).1.translation_servo_pos = c.translation_servo_pos ∨
    ∃ x, (move_forward c v).1.translation_servo_pos = clamp_servo x := by
  simp only [move_forward]
  split_ifs
  · exact Or.inr ⟨_, rfl⟩
  · exact Or.inl (by rw [move_servo_state])
  · exact Or.inl rfl

lemma move_backward_trans_cases (c : Servo) (v : ℚ) :
    (move_backward c v).1.translation_servo_pos = c.translation_servo_pos ∨
    ∃ x, (move_backward c v).1.translation_servo_pos = clamp_servo x := by
  simp only [move_backward]
  split_ifs
  · exact Or.inr ⟨_, rfl⟩
  · exact Or.inl (by rw [move_servo_state])
  · exact Or.inl rfl

/-- One controller operation preserves the envelope invariant: rotation in
`[-180, 180]`, positions in `[0, 100]`, and the configured safety limit. -/
lemma runOp_inv (c : Servo) (op : CtrlOp)
    (h : (-180 ≤ c.rotation_stepper_deg ∧ c.rotation_stepper_deg ≤ 180) ∧
         (0 ≤ c.elevation_servo_pos ∧ c.elevation_servo_pos ≤ 100) ∧
         (0 ≤ c.translation_servo_pos ∧ c.translation_servo_pos ≤ 100) ∧
         c.max_servo_change = 80) :
    (-180 ≤ (runOp c op).1.rotation_stepper_deg ∧ (runOp c op).1.rotation_stepper_deg ≤ 180) ∧
    (0 ≤ (runOp c op).1.elevation_servo_pos ∧ (runOp c op).1.elevation_servo_pos ≤ 100) ∧
    (0 ≤ (runOp c op).1.translation_servo_pos ∧ (runOp c op).1.translation_servo_pos ≤ 100) ∧
    (runOp c op).1.max_servo_change = 80 := by
  obtain ⟨hrot, helev, htrans, hmax⟩ := h
  cases op with
  | servoCmd ch v =>
      simp only [runOp]
      rw [move_servo_state]
      exact ⟨hrot, helev, htrans, hmax⟩
  | up v =>
      simp only [runOp]
      obtain ⟨ht, hr, hm⟩ := move_up_fields c v
      refine ⟨by rw [hr]; exact hrot, ?_, by rw [ht]; exact htrans, by rw [hm]; exact hmax⟩
      rcases move_up_elev_cases c v with hcase | ⟨x, hcase⟩
      · rw [hcase]; exact helev
      · rw [hcase]; exact clamp_servo_bounds x
  | down v =>
      simp only [runOp]
      obtain ⟨ht, hr, hm⟩ := move_down_fields c v
      refine ⟨by rw [hr]; exact hrot, ?_, by rw [ht]; exact htrans, by rw [hm]; exact hmax⟩
      rcases move_down_elev_cases c v with hcase | ⟨x, hcase⟩
      · rw [hcase]; exact helev
      · rw [hcase]; exact clamp_servo_bounds x
  | fwd v =>
      simp only [runOp]
      obtain ⟨he, hr, hm⟩ := move_forward_fields c v
      refine ⟨by rw [hr]; exact hrot, by rw [he]; exact helev, ?_, by rw [hm]; exact hmax⟩
      rcases move_forward_trans_cases c v with hcase | ⟨x, hcase⟩
      · rw [hcase]; exact htrans
      · rw [hcase]; exact clamp_servo_bounds x
  | back v =>
      simp only [runOp]
      obtain ⟨he, hr, hm⟩ := move_backward_fields c v
      refine ⟨by rw [hr]; exact hrot, by rw [he]; exact helev, ?_, by rw [hm]; exact hmax⟩
      rcases move_backward_trans_cases c v with hcase | ⟨x, hcase⟩
      · rw [hcase]; exact htrans
      · rw [hcase]; exact clamp_servo_bounds x
  | left d =>
      simp only [runOp]
      obtain ⟨he, ht, hm, hr⟩ := move_left_fields c d
      refine ⟨?_, by rw [he]; exact helev, by rw [ht]; exact htrans, by rw [hm]; exact hmax⟩
      rcases hr with hcase | hcase
      · rw [hcase]; exact hrot
      · rw [hcase]; exact clamp_rotation_bounds _
  | right d =>
      simp only [runOp]
      obtain ⟨he, ht, hm, hr⟩ := move_right_fields c d
      refine ⟨?_, by rw [he]; exact helev, by rw [ht]; exact htrans, by rw [hm]; exact hmax⟩
      rcases hr with hcase | hcase
      · rw [hcase]; exact hrot
      · rw [hcase]; exact clamp_rotation_bounds _

lemma runOps_inv :
    ∀ (ops : List CtrlOp) (c : Servo),
      (-180 ≤ c.rotation_stepper_deg ∧ c.rotation_stepper_deg ≤ 180) ∧
      (0 ≤ c.elevation_servo_pos ∧ c.elevation_servo_pos ≤ 100) ∧
      (0 ≤ c.translation_servo_pos ∧ c.translation_servo_pos ≤ 100) ∧
      c.max_servo_change = 80 →
      (-180 ≤ (runOps c ops).rotation_stepper_deg ∧ (runOps c ops).rotation_stepper_deg ≤ 180) ∧
      (0 ≤ (runOps c ops).elevation_servo_pos ∧ (runOps c ops).elevation_servo_pos ≤ 100) ∧
      (0 ≤ (runOps c ops).translation_servo_pos ∧ (runOps c ops).translation_servo_pos ≤ 100) ∧
      (runOps c ops).max_servo_change = 80 := by
  intro ops
  induction ops with
  | nil => intro c h; exact h
  | cons op rest ih =>
      intro c h
      exact ih (runOp c op).1 (runOp_inv c op h)

/-- C8: hardware safety envelope.  (i) Every `s:<channel>:<value>` line any
controller operation emits has channel in `[0, 15]` and value in `[0, 100]`;
(ii) from the constructor state, the stored rotation accumulator never
leaves `[-180, 180]` (and positions never leave `[0, 100]`, with the safety
limit fixed at 80); (iii) a rotation request whose target leaves the
envelope is a no-op returning `False` with no line emitted and the state
unchanged; (iv) no operation moves a stored servo position by more than the
configured `max_servo_change`. -/
theorem C8_hardware_safety_envelope :
    (∀ (c : Servo) (op : CtrlOp) (ch : ℤ) (v : ℚ),
       Line.servo ch v ∈ (runOp c op).2.1 →
       0 ≤ ch ∧ ch ≤ 15 ∧ 0 ≤ v ∧ v ≤ 100) ∧
    (∀ (connected : Bool) (ops : List CtrlOp),
       (-180 ≤ (runOps (initServo connected) ops).rotation_stepper_deg ∧
        (runOps (initServo connected) ops).rotation_stepper_deg ≤ 180) ∧
       (0 ≤ (runOps (initServo connected) ops).elevation_servo_pos ∧
        (runOps (initServo connected) ops).elevation_servo_pos ≤ 100) ∧
       (0 ≤ (runOps (initServo connected) ops).translation_servo_pos ∧
        (runOps (initServo connected) ops).translation_servo_pos ≤ 100) ∧
       (runOps (initServo connected) ops).max_servo_change = 80) ∧
    (∀ (c : Servo) (d : ℚ), c.rotation_stepper_deg - |d| < -180 →
       runOp c (.left d) = (c, [], false)) ∧
    (∀ (c : Servo) (d : ℚ), 180 < c.rotation_stepper_deg + |d| →
       runOp c (.right d) = (c, [], false)) ∧
    (∀ (c : Servo) (op : CtrlOp), 0 ≤ c.max_servo_change →
       0 ≤ c.elevation_servo_pos → c.elevation_servo_pos ≤ 100 →
       0 ≤ c.translation_servo_pos → c.translation_servo_pos ≤ 100 →
       |(runOp c op).1.elevation_servo_pos - c.elevation_servo_pos| ≤ c.max_servo_change ∧
       |(runOp c op).1.translation_servo_pos - c.translation_servo_pos| ≤ c.max_servo_change) := by
  refine ⟨?_, ?_, ?_, ?_, ?_⟩
  · intro c op ch v h
    cases op with
    | servoCmd ch' v' => exact move_servo_lines h
    | up v' => exact move_up_lines h
    | down v' => exact move_down_lines h
    | fwd v' => exact move_forward_lines h
    | back v' => exact move_backward_lines h
    | left d => exact absurd h (fun hh => move_left_lines hh)
    | right d => exact absurd h (fun hh => move_right_lines hh)
  · intro connected ops
    apply runOps_inv
    refine ⟨⟨by norm_num [initServo], by norm_num [initServo]⟩,
            ⟨by norm_num [initServo], by norm_num [initServo]⟩,
            ⟨by norm_num [initServo], by norm_num [initServo]⟩, rfl⟩
  · intro c d h
    exact move_left_noop h
  · intro c d h
    exact move_right_noop h
  · intro c op hmax he0 he1 ht0 ht1
    cases op with
    | servoCmd ch v =>
        simp only [runOp]
        rw [move_servo_state]
        simp [hmax]
    | up v =>
        simp only [runOp]
        refine ⟨(move_up_elev c v hmax he0 he1).1, ?_⟩
        rw [(move_up_fields c v).1]
        simp [hmax]
    | down v =>
        simp only [runOp]
        refine ⟨(move_down_elev c v hmax he0 he1).1, ?_⟩
        rw [(move_down_fields c v).1]
        simp [hmax]
    | fwd v =>
        simp only [runOp]
        refine ⟨?_, (move_forward_trans c v hmax ht0 ht1).1⟩
        rw [(move_forward_fields c v).1]
        simp [hmax]
    | back v =>
        simp only [runOp]
        refine ⟨?_, (move_backward_trans c v hmax ht0 ht1).1⟩
        rw [(move_backward_fields c v).1]
        simp [hmax]
    | left d =>
        simp only [runOp]
        rw [(move_left_fields c d).1, (move_left_fields c d).2.1]
        simp [hmax]
    | right d =>
        simp only [runOp]
        rw [(move_right_fields c d).1, (move_right_fields c d).2.1]
        simp [hmax]

/-- Witness for C8: a 120-degree left turn from rotation −100 is rejected as
a silent no-op; the envelope invariant instantiated after one accepted
90-degree left turn from the connected constructor state; the delta bound
instantiated on a 300-unit `move_up` request from the constructor state. -/
theorem C8_hardware_safety_envelope_witness :
    runOp { initServo true with rotation_stepper_deg := -100 } (.left 120) =
      ({ initServo true with rotation_stepper_deg := -100 }, [], false) ∧
    (-180 ≤ (runOps (initServo true) [.left 90]).rotation_stepper_deg ∧
     (runOps (initServo true) [.left 90]).rotation_stepper_deg ≤ 180) ∧
    |(runOp (initServo true) (.up 300)).1.elevation_servo_pos -
      (initServo true).elevation_servo_pos| ≤ (initServo true).max_servo_change := by
  refine ⟨?_, ?_, ?_⟩
  · apply C8_hardware_safety_envelope.2.2.1
    rw [show |(120:ℚ)| = 120 from abs_of_nonneg (by norm_num)]
    norm_num [initServo]
  · exact ((C8_hardware_safety_envelope.2.1 true [.left 90]).1)
  · exact (C8_hardware_safety_envelope.2.2.2.2 (initServo true) (.up 300)
      (by norm_num [initServo]) (by norm_num [initServo]) (by norm_num [initServo])
      (by norm_num [initServo]) (by norm_num [initServo])).1

/-- C7 (modelled from the spec, see `stepCountFromDegrees`): every accepted
`move_left`/`move_right` of the controller variant the core imports emits
exactly one `step:<direction>:<steps>` line with
`steps = round(|deg| * 1600 / 360)` floored to 1 when `deg > 0.01`, and
shifts the stored rotation by `∓|deg|`; in particular `move_left(90)` with
`MICROSTEP = 8` and `FULL_STEPS_PER_REVOLUTION = 200` emits `step:left:400`
and updates the rotation from 0 to −90. -/
theorem C7_stepper_step_count :
    (∀ (c : SpecStepper) (d : ℚ),
       -180 ≤ c.rotation - |d| → c.rotation - |d| ≤ 180 →
       specMoveLeft c d =
         (⟨c.rotation - |d|⟩, [Line.step "left" (stepCountFromDegrees d)])) ∧
    (∀ (c : SpecStepper) (d : ℚ),
       -180 ≤ c.rotation + |d| → c.rotation + |d| ≤ 180 →
       specMoveRight c d =
         (⟨c.rotation + |d|⟩, [Line.step "right" (stepCountFromDegrees d)])) ∧
    (∀ d : ℚ, d > 1 / 100 → 1 ≤ stepCountFromDegrees d) ∧
    stepCountFromDegrees 90 = 400 ∧
    specMoveLeft ⟨0⟩ 90 = (⟨-90⟩, [Line.step "left" 400]) ∧
    renderLine (Line.step "left" 400) = "step:left:400" := by
  have habs90 : |(90:ℚ)| = 90 := abs_of_nonneg (by norm_num)
  have h90 : stepCountFromDegrees 90 = 400 := by
    unfold stepCountFromDegrees STEPS_PER_REVOLUTION MICROSTEP FULL_STEPS_PER_REVOLUTION
    norm_num
  refine ⟨?_, ?_, ?_, h90, ?_, by decide⟩
  · intro c d hge hle
    unfold specMoveLeft
    rw [if_neg (by rintro (hc | hc) <;> linarith)]
  · intro c d hge hle
    unfold specMoveRight
    rw [if_neg (by rintro (hc | hc) <;> linarith)]
  · intro d hd
    unfold stepCountFromDegrees
    rw [if_pos hd]
    exact le_max_right _ _
  · unfold specMoveLeft
    rw [if_neg (by rintro (hc | hc) <;> rw [habs90] at hc <;> norm_num at hc)]
    rw [habs90, h90]
    norm_num

/-- Witness for C7: the general accepted-move shape applied at rotation 0
and 90 degrees. -/
theorem C7_stepper_step_count_witness :
    specMoveLeft ⟨0⟩ 90 =
      (⟨(0:ℚ) - |(90:ℚ)|⟩, [Line.step "left" (stepCountFromDegrees 90)]) := by
  apply C7_stepper_step_count.1 ⟨0⟩ 90
  · rw [abs_of_nonneg (by norm_num : (0:ℚ) ≤ 90)]
    norm_num
  · rw [abs_of_nonneg (by norm_num : (0:ℚ) ≤ 90)]
    norm_num

/-! ## Lemmas about the proactive poller -/

lemma check_sentinel_silent (cache : List String) (ar : Bool) (res : String)
    (h : isEmptySentinel res = true) :
    (check_and_remind cache ar res).spoken = none := by
  unfold check_and_remind
  split_ifs <;> simp_all

lemma check_shape (cache : List String) (ar : Bool) (res : String) :
    ((check_and_remind cache ar res).spoken = none ∧
     (check_and_remind cache ar res).cache = cache) ∨
    ((∃ u, (check_and_remind cache ar res).spoken = some u) ∧
     fingerprint res ∉ cache ∧
     (check_and_remind cache ar res).cache = fingerprint res :: cache) := by
  simp only [check_and_remind]
  split_ifs with h1 h2 h3 h4 <;>
    first
      | exact Or.inl ⟨rfl, rfl⟩
      | · refine Or.inr ⟨⟨_, rfl⟩, ?_, rfl⟩
          intro hmem
          exact h4 (by simpa using hmem)

lemma pollerRun_no_clear :
    ∀ (events : List PollEvent) (cache : List String),
      (∀ e ∈ events, e ≠ PollEvent.clearCache) →
      (∀ k ∈ (pollerRun cache events).2, k ∉ cache) ∧
      (pollerRun cache events).2.Nodup := by
  intro events
  induction events with
  | nil =>
      intro cache _
      exact ⟨fun k hk => absurd hk (by simp [pollerRun]), by simp [pollerRun]⟩
  | cons e rest ih =>
      intro cache hnc
      have hrest : ∀ x ∈ rest, x ≠ PollEvent.clearCache :=
        fun x hx => hnc x (by simp [hx])
      cases e with
      | clearCache => exact absurd rfl (hnc .clearCache (by simp))
      | poll ar res =>
          rcases check_shape cache ar res with ⟨hs, hcache⟩ | ⟨⟨u, hs⟩, hnew, hcache⟩
          · have heval : pollerRun cache (.poll ar res :: rest) =
                ((pollerRun cache rest).1, (pollerRun cache rest).2) := by
              show (let cr := check_and_remind cache ar res
                    let rest' := pollerRun cr.cache rest
                    (rest'.1, (match cr.spoken with
                               | some _ => [fingerprint res]
                               | none => []) ++ rest'.2)) = _
              rw [show check_and_remind cache ar res =
                    ⟨cache, none⟩ from ?_]
              · simp
              · cases hck : check_and_remind cache ar res with
                | mk c sp =>
                    rw [hck] at hs hcache
                    simp at hs hcache
                    rw [hs, hcache]
            rw [heval]
            exact ih cache hrest
          · have hihr := ih (fingerprint res :: cache) hrest
            have heval : pollerRun cache (.poll ar res :: rest) =
                ((pollerRun (fingerprint res :: cache) rest).1,
                 fingerprint res :: (pollerRun (fingerprint res :: cache) rest).2) := by
              show (let cr := check_and_remind cache ar res
                    let rest' := pollerRun cr.cache rest
                    (rest'.1, (match cr.spoken with
                               | some _ => [fingerprint res]
                               | none => []) ++ rest'.2)) = _
              rw [show check_and_remind cache ar res =
                    ⟨fingerprint res :: cache, some u⟩ from ?_]
              · simp
              · cases hck : check_and_remind cache ar res with
                | mk c sp =>
                    rw [hck] at hs hcache
                    simp at hs hcache
                    rw [hs, hcache]
            rw [heval]
            constructor
            · intro k hk
              rcases List.mem_cons.mp hk with hkey | hk2
              · subst hkey
                exact hnew
              · intro hkc
                exact hihr.1 k hk2 (by simp [hkc])
            · rw [List.nodup_cons]
              refine ⟨?_, hihr.2⟩
              intro hmem
              exact hihr.1 _ hmem (by simp)

/-- C9: within one session (no explicit cache clear), the Poller speaks at
most once per distinct fingerprint — the spoken fingerprints are pairwise
distinct and disjoint from the initial reminded-set — a spoken answer's
fingerprint was new and is recorded, and an answer that canonicalizes to an
empty sentinel is never spoken at all. -/
theorem C9_idempotent_reminders :
    (∀ (events : List PollEvent) (cache : List String),
       (∀ e ∈ events, e ≠ PollEvent.clearCache) →
       (pollerRun cache events).2.Nodup ∧
       ∀ k ∈ (pollerRun cache events).2, k ∉ cache) ∧
    (∀ (cache : List String) (ar : Bool) (res : String),
       isEmptySentinel res = true → (check_and_remind cache ar res).spoken = none) ∧
    (∀ (cache : List String) (res : String),
       (check_and_remind cache false res).spoken = none) ∧
    (∀ (cache : List String) (ar : Bool) (res u : String),
       (check_and_remind cache ar res).spoken = some u →
       fingerprint res ∉ cache ∧
       (check_and_remind cache ar res).cache = fingerprint res :: cache) := by
  refine ⟨?_, check_sentinel_silent, ?_, ?_⟩
  · intro events cache h
    exact ⟨(pollerRun_no_clear events cache h).2, (pollerRun_no_clear events cache h).1⟩
  · intro cache res
    unfold check_and_remind
    rw [if_pos (by simp)]
  · intro cache ar res u hs
    rcases check_shape cache ar res with ⟨hnone, _⟩ | ⟨_, hnew, hcache⟩
    · rw [hnone] at hs
      cases hs
    · exact ⟨hnew, hcache⟩

/-- Witness for C9: two identical answers produce exactly one distinct
spoken fingerprint, and the sentinel answer is silent. -/
theorem C9_idempotent_reminders_witness :
    (pollerRun [] [.poll true "Task A due", .poll true "Task A due"]).2.Nodup ∧
    (check_and_remind [] true "No tasks due.").spoken = none := by
  constructor
  · exact (C9_idempotent_reminders.1
      [.poll true "Task A due", .poll true "Task A due"] [] (by decide)).1
  · exact C9_idempotent_reminders.2.1 [] true "No tasks due." (by decide)

end Poppy
